import Mathlib

/-!
# es-tool: export / import between an Elasticsearch index and an NDJSON file

A shallow embedding of `main.go` (functions `exportIndexData`, `importIndexData`
and `importBatch`) together with the properties of the specification that can be
stated over it.

Conventions of the embedding.

* A byte sequence (`[]byte`, `json.RawMessage`, a file's content) is a `List Char`.
* The Elasticsearch client is the environment: every call is recorded in a log and
  answered by a reply supplied by the caller (a list of replies for the export, the
  reply to the `k`-th bulk write for the import).
* The output file of the export and the input file of the import are environment too:
  `os.Create`, `writer.Write` and `os.Open` may fail as the caller says.
* `fmt.Errorf` values are kept as data: one constructor per call site, carrying
  exactly the operands handed to `fmt.Errorf` at that site.
* What the program uses of `encoding/json` is gathered in the structure `Json`;
  `goJson` is a transcription of the scanner of `encoding/json` used for concrete
  evaluations.
-/

namespace EsTool

/-- A byte sequence. -/
abbrev Bytes := List Char

/-- The line feed byte. -/
def LF : Char := Char.ofNat 10

/-- The carriage return byte. -/
def CR : Char := Char.ofNat 13

/-- The double quote byte. -/
def DQ : Char := Char.ofNat 34

/-- The backslash byte. -/
def BS : Char := Char.ofNat 92

/-- Equality of results is decidable. -/
instance instDecidableEqExcept {ε α : Type} [DecidableEq ε] [DecidableEq α] :
    DecidableEq (Except ε α) := fun a b =>
  match a, b with
  | .ok x, .ok y => if h : x = y then isTrue (by rw [h]) else isFalse (fun h1 => h (by cases h1; rfl))
  | .error x, .error y =>
    if h : x = y then isTrue (by rw [h]) else isFalse (fun h1 => h (by cases h1; rfl))
  | .ok _, .error _ => isFalse (fun h => by cases h)
  | .error _, .ok _ => isFalse (fun h => by cases h)

/-! ## The part of `encoding/json` the program relies on -/

/-- The error of `json.Unmarshal` on malformed input (`*json.SyntaxError`): the number
of bytes read before the error. The message text is not modelled. -/
structure SyntaxError where
  Offset : Nat
  deriving DecidableEq, Repr

/-- The three uses of `encoding/json` in the import path.

* `Unmarshal line` is `json.Unmarshal([]byte(line), &doc)` for a `json.RawMessage`.
* `EncodeAction index` is what `json.NewEncoder(&buf).Encode(indexAction)` appends.
* `EncodeRaw doc` is what `json.NewEncoder(&buf).Encode(json.RawMessage(doc))` appends. -/
structure Json where
  Unmarshal : Bytes → Except SyntaxError Bytes
  EncodeAction : String → Except String Bytes
  EncodeRaw : Bytes → Except String Bytes

/-- The two facts about `encoding/json` the bulk request relies on: encoding the index
action does not fail, and a document that `json.Unmarshal` produced can be encoded. -/
structure Json.Lawful (json : Json) : Prop where
  encodeAction_ok : ∀ index, ∃ b, json.EncodeAction index = .ok b
  encodeRaw_unmarshal :
    ∀ line doc, json.Unmarshal line = .ok doc → ∃ b, json.EncodeRaw doc = .ok b

/-! ### The scanner of `encoding/json` -/

/-- The step functions of the scanner (`stateBeginValue`, `stateInString`, ...). -/
inductive Step where
  | beginValueOrEmpty | beginValue | beginStringOrEmpty | beginString
  | endValue | endTop
  | inString | inStringEsc | inStringEscU | inStringEscU1 | inStringEscU12 | inStringEscU123
  | neg | s1 | s0 | dot | dot0 | e | eSign | e0
  | t | tr | tru | f | fa | fal | fals | n | nu | nul
  deriving DecidableEq, Repr

/-- The entries of the scanner's parse stack. -/
inductive ParseState where
  | objectKey | objectValue | arrayValue
  deriving DecidableEq, Repr

/-- The scanner: its current step function and its parse stack (innermost first).
`endTop` of the Go scanner is true exactly when the step is `Step.endTop`. -/
structure Scanner where
  step : Step
  parseState : List ParseState
  deriving DecidableEq, Repr

/-- The nesting limit of the scanner. -/
def maxNestingDepth : Nat := 10000

/-- Go `isSpace`. -/
def isSpace (c : Char) : Bool :=
  c == Char.ofNat 32 || c == Char.ofNat 9 || c == CR || c == LF

/-- A decimal digit. -/
def isDigit (c : Char) : Bool := Char.ofNat 48 ≤ c && c ≤ Char.ofNat 57

/-- A hexadecimal digit. -/
def isHex (c : Char) : Bool :=
  isDigit c || (Char.ofNat 97 ≤ c && c ≤ Char.ofNat 102) || (Char.ofNat 65 ≤ c && c ≤ Char.ofNat 70)

/-- Go `stateEndValue`: the byte after a value. The result is the new scanner and
whether the byte is dropped by compaction (op codes `scanSkipSpace`, `scanEnd`). -/
def stateEndValue (ps : List ParseState) (c : Char) : Option (Scanner × Bool) :=
  match ps with
  | [] => if isSpace c then some (⟨.endTop, []⟩, true) else none
  | p :: rest =>
    if isSpace c then some (⟨.endValue, ps⟩, true)
    else match p with
      | .objectKey =>
        if c == Char.ofNat 58 then some (⟨.beginValue, .objectValue :: rest⟩, false) else none
      | .objectValue =>
        if c == Char.ofNat 44 then some (⟨.beginString, .objectKey :: rest⟩, false)
        else if c == Char.ofNat 125 then
          some (⟨if rest.isEmpty then .endTop else .endValue, rest⟩, false)
        else none
      | .arrayValue =>
        if c == Char.ofNat 44 then some (⟨.beginValue, ps⟩, false)
        else if c == Char.ofNat 93 then
          some (⟨if rest.isEmpty then .endTop else .endValue, rest⟩, false)
        else none

/-- Go `pushParseState`. -/
def pushParseState (next : Step) (p : ParseState) (ps : List ParseState) :
    Option (Scanner × Bool) :=
  if (p :: ps).length ≤ maxNestingDepth then some (⟨next, p :: ps⟩, false) else none

/-- Go `stateBeginValue`. -/
def stateBeginValue (ps : List ParseState) (c : Char) : Option (Scanner × Bool) :=
  if isSpace c then some (⟨.beginValue, ps⟩, true)
  else if c == Char.ofNat 123 then pushParseState .beginStringOrEmpty .objectKey ps
  else if c == Char.ofNat 91 then pushParseState .beginValueOrEmpty .arrayValue ps
  else if c == DQ then some (⟨.inString, ps⟩, false)
  else if c == Char.ofNat 45 then some (⟨.neg, ps⟩, false)
  else if c == Char.ofNat 48 then some (⟨.s0, ps⟩, false)
  else if c == Char.ofNat 116 then some (⟨.t, ps⟩, false)
  else if c == Char.ofNat 102 then some (⟨.f, ps⟩, false)
  else if c == Char.ofNat 110 then some (⟨.n, ps⟩, false)
  else if Char.ofNat 49 ≤ c && c ≤ Char.ofNat 57 then some (⟨.s1, ps⟩, false)
  else none

/-- Go `stateBeginString`. -/
def stateBeginString (ps : List ParseState) (c : Char) : Option (Scanner × Bool) :=
  if isSpace c then some (⟨.beginString, ps⟩, true)
  else if c == DQ then some (⟨.inString, ps⟩, false)
  else none

/-- Go `state0`: after a leading zero or the integer part of a number. -/
def state0 (ps : List ParseState) (c : Char) : Option (Scanner × Bool) :=
  if c == Char.ofNat 46 then some (⟨.dot, ps⟩, false)
  else if c == Char.ofNat 101 || c == Char.ofNat 69 then some (⟨.e, ps⟩, false)
  else stateEndValue ps c

/-- Go `stateESign`. -/
def stateESign (ps : List ParseState) (c : Char) : Option (Scanner × Bool) :=
  if isDigit c then some (⟨.e0, ps⟩, false) else none

/-- The literal states: the expected byte leads to `next`. -/
def expect (want : Nat) (next : Step) (ps : List ParseState) (c : Char) :
    Option (Scanner × Bool) :=
  if c == Char.ofNat want then some (⟨next, ps⟩, false) else none

/-- One call `s.step(s, c)` of the scanner; `none` is `scanError`. -/
def Scanner.next (s : Scanner) (c : Char) : Option (Scanner × Bool) :=
  let ps := s.parseState
  match s.step with
  | .beginValueOrEmpty =>
    if isSpace c then some (s, true)
    else if c == Char.ofNat 93 then stateEndValue ps c
    else stateBeginValue ps c
  | .beginValue => stateBeginValue ps c
  | .beginStringOrEmpty =>
    if isSpace c then some (s, true)
    else if c == Char.ofNat 125 then
      match ps with
      | [] => none
      | _ :: rest => stateEndValue (.objectValue :: rest) c
    else stateBeginString ps c
  | .beginString => stateBeginString ps c
  | .endValue => stateEndValue ps c
  | .endTop => if isSpace c then some (s, true) else none
  | .inString =>
    if c == DQ then some (⟨.endValue, ps⟩, false)
    else if c == BS then some (⟨.inStringEsc, ps⟩, false)
    else if c < Char.ofNat 32 then none
    else some (s, false)
  | .inStringEsc =>
    if c == Char.ofNat 98 || c == Char.ofNat 102 || c == Char.ofNat 110 || c == Char.ofNat 114
        || c == Char.ofNat 116 || c == BS || c == Char.ofNat 47 || c == DQ then
      some (⟨.inString, ps⟩, false)
    else if c == Char.ofNat 117 then some (⟨.inStringEscU, ps⟩, false)
    else none
  | .inStringEscU => if isHex c then some (⟨.inStringEscU1, ps⟩, false) else none
  | .inStringEscU1 => if isHex c then some (⟨.inStringEscU12, ps⟩, false) else none
  | .inStringEscU12 => if isHex c then some (⟨.inStringEscU123, ps⟩, false) else none
  | .inStringEscU123 => if isHex c then some (⟨.inString, ps⟩, false) else none
  | .neg =>
    if c == Char.ofNat 48 then some (⟨.s0, ps⟩, false)
    else if Char.ofNat 49 ≤ c && c ≤ Char.ofNat 57 then some (⟨.s1, ps⟩, false)
    else none
  | .s1 => if isDigit c then some (s, false) else state0 ps c
  | .s0 => state0 ps c
  | .dot => if isDigit c then some (⟨.dot0, ps⟩, false) else none
  | .dot0 =>
    if isDigit c then some (s, false)
    else if c == Char.ofNat 101 || c == Char.ofNat 69 then some (⟨.e, ps⟩, false)
    else stateEndValue ps c
  | .e =>
    if c == Char.ofNat 43 || c == Char.ofNat 45 then some (⟨.eSign, ps⟩, false)
    else stateESign ps c
  | .eSign => stateESign ps c
  | .e0 => if isDigit c then some (s, false) else stateEndValue ps c
  | .t => expect 114 .tr ps c
  | .tr => expect 117 .tru ps c
  | .tru => expect 101 .endValue ps c
  | .f => expect 97 .fa ps c
  | .fa => expect 108 .fal ps c
  | .fal => expect 115 .fals ps c
  | .fals => expect 101 .endValue ps c
  | .n => expect 117 .nu ps c
  | .nu => expect 108 .nul ps c
  | .nul => expect 108 .endValue ps c

/-- The scanner before the first byte (`scan.reset()`). -/
def Scanner.init : Scanner := ⟨.beginValue, []⟩

/-- A hexadecimal digit of the table `0123456789abcdef`. -/
def hexDigit (n : Nat) : Char :=
  if n < 10 then Char.ofNat (48 + n) else Char.ofNat (87 + n)

/-- What compaction with HTML escaping writes for one byte `c`, given whether the
scanner's op code drops it: the bytes `<`, `>`, `&` and the code points U+2028,
U+2029 are replaced by a `\u` escape, a dropped byte is omitted. -/
def compactByte (c : Char) (dropped : Bool) : Bytes :=
  if c == Char.ofNat 60 || c == Char.ofNat 62 || c == Char.ofNat 38 then
    [BS, Char.ofNat 117, Char.ofNat 48, Char.ofNat 48, hexDigit (c.toNat / 16),
      hexDigit (c.toNat % 16)]
  else if c == Char.ofNat 0x2028 || c == Char.ofNat 0x2029 then
    [BS, Char.ofNat 117, Char.ofNat 50, Char.ofNat 48, Char.ofNat 50, hexDigit (c.toNat % 16)]
  else if dropped then []
  else [c]

/-- The scanner driven over `data` from state `s` after `bytes` bytes: the final
scanner with the compacted text, or the error of the first rejected byte. -/
def Scanner.run (s : Scanner) (bytes : Nat) : Bytes → Except SyntaxError (Scanner × Bytes)
  | [] => .ok (s, [])
  | c :: rest =>
    match s.next c with
    | none => .error ⟨bytes + 1⟩
    | some (s1, dropped) =>
      match Scanner.run s1 (bytes + 1) rest with
      | .error err => .error err
      | .ok (s2, out) => .ok (s2, compactByte c dropped ++ out)

/-- Go `eof`: whether the input may end in state `s`. -/
def Scanner.eof (s : Scanner) : Bool :=
  if s.step = .endTop then true
  else match s.next (Char.ofNat 32) with
    | some (s1, _) => decide (s1.step = .endTop)
    | none => false

/-- Go `checkValid` together with `appendCompact`: the compacted text of a valid JSON
text, or the syntax error. -/
def compact (data : Bytes) : Except SyntaxError Bytes :=
  match Scanner.init.run 0 data with
  | .error err => .error err
  | .ok (s, out) => if s.eof then .ok out else .error ⟨data.length⟩

/-- Removal of trailing JSON white space. -/
def trimRight : Bytes → Bytes
  | [] => []
  | c :: rest =>
    match trimRight rest with
    | [] => if isSpace c then [] else [c]
    | d :: ds => c :: d :: ds

/-- The bytes of the value of a valid JSON text: the text without the white space
around it. -/
def trimSpace (data : Bytes) : Bytes := trimRight (data.dropWhile isSpace)

/-- Go `json.Unmarshal(data, &doc)` for `doc` a `json.RawMessage`: the data is
checked, then the bytes of its value are stored. -/
def goUnmarshal (data : Bytes) : Except SyntaxError Bytes :=
  match compact data with
  | .error err => .error err
  | .ok _ => .ok (trimSpace data)

/-- Go `Encode(json.RawMessage(doc))`: the compacted, HTML-escaped document and a
line feed; an error when the document is not valid JSON. -/
def goEncodeRaw (doc : Bytes) : Except String Bytes :=
  match compact doc with
  | .error _ => .error "json: error calling MarshalJSON for type json.RawMessage"
  | .ok out => .ok (out ++ [LF])

/-- The encoding of one character of a Go string as JSON with HTML escaping. -/
def encodeChar (c : Char) : Bytes :=
  if c == DQ || c == BS then [BS, c]
  else if c == Char.ofNat 8 then [BS, Char.ofNat 98]
  else if c == Char.ofNat 12 then [BS, Char.ofNat 102]
  else if c == LF then [BS, Char.ofNat 110]
  else if c == CR then [BS, Char.ofNat 114]
  else if c == Char.ofNat 9 then [BS, Char.ofNat 116]
  else if c < Char.ofNat 32 || c == Char.ofNat 60 || c == Char.ofNat 62 || c == Char.ofNat 38 then
    [BS, Char.ofNat 117, Char.ofNat 48, Char.ofNat 48, hexDigit (c.toNat / 16),
      hexDigit (c.toNat % 16)]
  else if c == Char.ofNat 0x2028 || c == Char.ofNat 0x2029 then
    [BS, Char.ofNat 117, Char.ofNat 50, Char.ofNat 48, Char.ofNat 50, hexDigit (c.toNat % 16)]
  else [c]

/-- Go `Encode(indexAction)` for the map with the one entry `index` holding the one
entry `_index`: the action line of the bulk request. -/
def goEncodeAction (index : String) : Except String Bytes :=
  .ok ("\x7b\"index\":\x7b\"_index\":\"".toList ++ index.toList.flatMap encodeChar
    ++ "\"\x7d\x7d".toList ++ [LF])

/-- The transcription of `encoding/json`. -/
def goJson : Json where
  Unmarshal := goUnmarshal
  EncodeAction := goEncodeAction
  EncodeRaw := goEncodeRaw

/-- The scanner state after `data`, when no byte is rejected. -/
def Scanner.final (s : Scanner) : Bytes → Option Scanner
  | [] => some s
  | c :: rest =>
    match s.next c with
    | none => none
    | some (s1, _) => Scanner.final s1 rest

/-! ## Configuration and the Elasticsearch client -/

/-- Go `Config`: the command line parameters. -/
structure Config where
  ESURL : String
  Index : String
  Username : String
  Password : String
  Output : String
  Input : String
  Mode : String
  deriving DecidableEq, Repr

/-- One element of `hits.hits` of a decoded search response: its `_source`. -/
structure Hit where
  Source : Bytes
  deriving DecidableEq, Repr

/-- The decoded search or scroll response (`response` in `exportIndexData`). -/
structure SearchResponse where
  ScrollID : String
  Hits : List Hit
  deriving DecidableEq, Repr

/-- What one `es.Search` or `es.Scroll` call and the decoding of its response yield. -/
inductive SearchReply where
  /-- The call returned `err != nil`. -/
  | transport (err : String)
  /-- The response has `res.IsError()`; `res` is `res.String()`. -/
  | isError (res : String)
  /-- Decoding the response body failed. -/
  | undecodable (err : String)
  /-- The response decoded to `response`. -/
  | ok (response : SearchResponse)
  deriving DecidableEq, Repr

/-- The page size requested by the initial query (`batchSize` in `exportIndexData`) and
the chunk size of the import (`batchSize` in `importIndexData`). -/
def batchSize : Nat := 1000

/-- The time-to-live of the cursor, in minutes (`2*time.Minute`). -/
def scrollMinutes : Nat := 2

/-- A paginated read issued to the client. -/
inductive EsCall where
  /-- Go `es.Search` with index, the match-all query, scroll time-to-live and size. -/
  | search (index : String) (scroll : Nat) (size : Nat)
  /-- Go `es.Scroll` with the scroll id and the scroll time-to-live. -/
  | scroll (scrollID : String) (scroll : Nat)
  deriving DecidableEq, Repr

/-! ## Export -/

/-- The errors `exportIndexData` returns, one constructor per `fmt.Errorf` call that can
be reached (encoding the constant match-all query cannot fail). -/
inductive ExportError where
  /-- Go `fmt.Errorf("failed to create output file: %v", err)`. -/
  | createOutput (err : String)
  /-- Go `fmt.Errorf("scroll request failed: %v", err)`. -/
  | scrollRequest (err : String)
  /-- Go `fmt.Errorf("scroll response error: %s", res.String())`. -/
  | scrollResponse (res : String)
  /-- Go `fmt.Errorf("failed to decode response: %v", err)`. -/
  | decodeResponse (err : String)
  /-- Go `fmt.Errorf("failed to write to file: %v", err)`. -/
  | writeFile (err : String)
  /-- Go `fmt.Errorf("failed to write newline: %v", err)`. -/
  | writeNewline (err : String)
  deriving DecidableEq, Repr

/-- The environment of an export. -/
structure ExportEnv where
  /-- The error of `os.Create(config.Output)`, if any. -/
  create : Option String
  /-- The replies to the successive `es.Search` / `es.Scroll` calls. -/
  replies : List SearchReply
  /-- The error of the `k`-th call of `writer.Write` (counted from 0), if any. -/
  writeErr : Nat → Option String
  /-- The error of `es.ClearScroll`, if any. -/
  clearErr : Option String

/-- The variables of `exportIndexData` and the observable effects so far. -/
structure ExportState where
  /-- The variable `scrollID`. -/
  scrollID : String
  /-- The variable `totalDocs`. -/
  totalDocs : Nat
  /-- The bytes accepted by `writer`, in order. -/
  out : Bytes
  /-- The number of `writer.Write` calls made. -/
  writes : Nat
  /-- The `es.Search` / `es.Scroll` calls made, in order. -/
  calls : List EsCall
  /-- The counts printed by `Processed %d documents...`. -/
  progress : List Nat
  deriving DecidableEq, Repr

/-- The outcome of an export. -/
structure ExportRun where
  /-- The `es.Search` / `es.Scroll` calls made, in order. -/
  calls : List EsCall
  /-- The content of the output file. -/
  out : Bytes
  /-- The final value of `totalDocs`. -/
  totalDocs : Nat
  /-- The counts printed by `Processed %d documents...`. -/
  progress : List Nat
  /-- The scroll id handed to `es.ClearScroll`, when it was called. -/
  cleared : Option String
  /-- The warnings logged (`Warning: failed to clear scroll: %v`). -/
  warnings : List String
  /-- The returned error, `none` for `nil`. -/
  err : Option ExportError
  deriving DecidableEq, Repr

/-- The call the loop of `exportIndexData` issues for the current `scrollID`. -/
def nextCall (index : String) (scrollID : String) : EsCall :=
  if scrollID = "" then .search index scrollMinutes batchSize
  else .scroll scrollID scrollMinutes

/-- The loop `for _, hit := range response.Hits.Hits` of `exportIndexData`: the state
after it and the error it returned with, if any. -/
def writeHits (writeErr : Nat → Option String) :
    List Hit → ExportState → ExportState × Option ExportError
  | [], st => (st, none)
  | hit :: rest, st =>
    match writeErr st.writes with
    | some err => ({ st with writes := st.writes + 1 }, some (.writeFile err))
    | none =>
      let st1 := { st with out := st.out ++ hit.Source, writes := st.writes + 1 }
      match writeErr st1.writes with
      | some err => ({ st1 with writes := st1.writes + 1 }, some (.writeNewline err))
      | none =>
        writeHits writeErr rest
          { st1 with out := st1.out ++ [LF], writes := st1.writes + 1,
                     totalDocs := st1.totalDocs + 1 }

/-- The loop `for { ... }` of `exportIndexData`, one reply per iteration: the state at
the `break` or at the `return`, with the returned error. `none` when the replies run
out before the loop ends. -/
def exportLoop (index : String) (writeErr : Nat → Option String) :
    List SearchReply → ExportState → Option (ExportState × Option ExportError)
  | [], _ => none
  | reply :: rest, st =>
    let st1 := { st with calls := st.calls ++ [nextCall index st.scrollID] }
    match reply with
    | .transport err => some (st1, some (.scrollRequest err))
    | .isError res => some (st1, some (.scrollResponse res))
    | .undecodable err => some (st1, some (.decodeResponse err))
    | .ok response =>
      let st2 := { st1 with scrollID := response.ScrollID }
      if response.Hits.length = 0 then some (st2, none)
      else
        match writeHits writeErr response.Hits st2 with
        | (st3, some err) => some (st3, some err)
        | (st3, none) =>
          exportLoop index writeErr rest { st3 with progress := st3.progress ++ [st3.totalDocs] }

/-- Go `exportIndexData`. -/
def exportIndexData (env : ExportEnv) (config : Config) : Option ExportRun :=
  match env.create with
  | some err =>
    some { calls := [], out := [], totalDocs := 0, progress := [], cleared := none,
           warnings := [], err := some (.createOutput err) }
  | none =>
    match exportLoop config.Index env.writeErr env.replies
        { scrollID := "", totalDocs := 0, out := [], writes := 0, calls := [], progress := [] } with
    | none => none
    | some (st, some err) =>
      some { calls := st.calls, out := st.out, totalDocs := st.totalDocs,
             progress := st.progress, cleared := none, warnings := [], err := some err }
    | some (st, none) =>
      if st.scrollID ≠ "" then
        some { calls := st.calls, out := st.out, totalDocs := st.totalDocs,
               progress := st.progress, cleared := some st.scrollID,
               warnings := match env.clearErr with
                 | some err => [err]
                 | none => [],
               err := none }
      else
        some { calls := st.calls, out := st.out, totalDocs := st.totalDocs,
               progress := st.progress, cleared := none, warnings := [], err := none }

/-! ## Import -/

/-- The limit of `bufio.Scanner` on the length of a line (`bufio.MaxScanTokenSize`). -/
def maxScanTokenSize : Nat := 65536

/-- The lines of `data` as `bufio.ScanLines` cuts them, before `dropCR`: every line
feed ends a line, and a non-empty rest after the last line feed is a line. -/
def rawLines : Bytes → List Bytes
  | [] => []
  | c :: rest =>
    if c = LF then [] :: rawLines rest
    else
      match rawLines rest with
      | [] => [[c]]
      | line :: lines => (c :: line) :: lines

/-- Go `dropCR` of `bufio`: a trailing carriage return is dropped. -/
def dropCR (data : Bytes) : Bytes :=
  if data.getLast? = some CR then data.dropLast else data

/-- One entry `document %d: %s` of the aggregated bulk error: the operands of
`fmt.Sprintf("document %d: %s", i, item.Index.Error)`. -/
structure DocumentError where
  position : Nat
  message : String
  deriving DecidableEq, Repr

/-- The errors `importBatch` returns, one constructor per `fmt.Errorf` call. -/
inductive BatchError where
  /-- Go `fmt.Errorf("failed to encode index action: %v", err)`. -/
  | encodeAction (err : String)
  /-- Go `fmt.Errorf("failed to encode document: %v", err)`. -/
  | encodeDocument (err : String)
  /-- Go `fmt.Errorf("bulk request failed: %v", err)`. -/
  | bulkRequest (err : String)
  /-- Go `fmt.Errorf("bulk response error: %s, body: %s", res.String(), string(body))`. -/
  | bulkResponse (res : String) (body : String)
  /-- Go `fmt.Errorf("failed to decode bulk response: %v", err)`. -/
  | decodeResponse (err : String)
  /-- Go `fmt.Errorf("bulk import errors: %v", errors)`. -/
  | bulkImport (errors : List DocumentError)
  deriving DecidableEq, Repr

/-- The limit error of the scanner (`bufio.ErrTooLong`). -/
inductive ScanError where
  | tooLong
  deriving DecidableEq, Repr

/-- The errors `importIndexData` returns, one constructor per `fmt.Errorf` call, each
with the operands the call passes. -/
inductive ImportError where
  /-- Go `fmt.Errorf("failed to open input file: %v", err)`. -/
  | openInput (err : String)
  /-- Go `fmt.Errorf("failed to parse JSON at line %d: %v", err)`: the one operand is
  the error of `json.Unmarshal`. -/
  | parseJSON (err : SyntaxError)
  /-- Go `fmt.Errorf("failed to read file: %v", err)`. -/
  | readFile (err : ScanError)
  /-- Go `fmt.Errorf("failed to import batch %d-%d: %v", i, end-1, err)`. -/
  | importBatch (i : Nat) (endMinusOne : Nat) (err : BatchError)
  deriving DecidableEq, Repr

/-- One element of `items` of a decoded bulk response: its `index.status` and
`index.error`. -/
structure BulkItem where
  Status : Int
  Error : String
  deriving DecidableEq, Repr

/-- The decoded bulk response (`result` in `importBatch`). -/
structure BulkResult where
  Errors : Bool
  Items : List BulkItem
  deriving DecidableEq, Repr

/-- What one `es.Bulk` call and the decoding of its response yield. -/
inductive BulkReply where
  /-- The call returned `err != nil`. -/
  | transport (err : String)
  /-- The response has `res.IsError()`; `res.String()` and the body read from it. -/
  | isError (res : String) (body : String)
  /-- Decoding the response body failed. -/
  | undecodable (err : String)
  /-- The response decoded to `result`. -/
  | ok (result : BulkResult)
  deriving DecidableEq, Repr

/-- One `es.Bulk` call: the target index, the documents of the chunk it was built from
and the request body. -/
structure BulkCall where
  index : String
  documents : List Bytes
  body : Bytes
  deriving DecidableEq, Repr

/-- The loop `for _, doc := range documents` of `importBatch`, which appends to `buf`
the action line and the document line of every document. -/
def bulkBody (json : Json) (index : String) : List Bytes → Bytes → Except BatchError Bytes
  | [], buf => .ok buf
  | doc :: rest, buf =>
    match json.EncodeAction index with
    | .error err => .error (.encodeAction err)
    | .ok action =>
      match json.EncodeRaw doc with
      | .error err => .error (.encodeDocument err)
      | .ok line => bulkBody json index rest (buf ++ action ++ line)

/-- The loop `for i, item := range result.Items` of `importBatch`. -/
def collectErrors : List BulkItem → Nat → List DocumentError → List DocumentError
  | [], _, errors => errors
  | item :: rest, i, errors =>
    if item.Status ≥ 400 then collectErrors rest (i + 1) (errors ++ [⟨i, item.Error⟩])
    else collectErrors rest (i + 1) errors

/-- The check of the decoded bulk result at the end of `importBatch`. -/
def checkResult (result : BulkResult) : Option BatchError :=
  if result.Errors then
    let errors := collectErrors result.Items 0 []
    if errors.length > 0 then some (.bulkImport errors) else none
  else none

/-- What `importBatch` returns once `es.Bulk` has been called and answered by `reply`. -/
def replyError : BulkReply → Option BatchError
  | .transport err => some (.bulkRequest err)
  | .isError res body => some (.bulkResponse res body)
  | .undecodable err => some (.decodeResponse err)
  | .ok result => checkResult result

/-- Go `importBatch`: the `es.Bulk` call it made, if it got that far, and the returned
error (`none` for `nil`). `reply` answers the `es.Bulk` call. -/
def importBatch (json : Json) (index : String) (documents : List Bytes) (reply : BulkReply) :
    Option BulkCall × Option BatchError :=
  match bulkBody json index documents [] with
  | .error err => (none, some err)
  | .ok body => (some ⟨index, documents, body⟩, replyError reply)

/-- The member `error` of an item of a bulk response as the index sends it: absent
for an item that succeeded, a JSON string, or a JSON object with `type` and `reason`
(the form Elasticsearch uses for a failed item). -/
inductive WireError where
  | absent
  | text (message : String)
  | object (type : String) (reason : String)
  deriving DecidableEq, Repr

/-- One element of `items` of a bulk response as the index sends it. -/
structure WireItem where
  status : Int
  error : WireError
  deriving DecidableEq, Repr

/-- The body of a bulk response as the index sends it. -/
structure WireBulk where
  errors : Bool
  items : List WireItem
  deriving DecidableEq, Repr

/-- Go `json.NewDecoder(res.Body).Decode(&result)` for the `result` of `importBatch`,
whose member `Error` is declared `string`: a JSON string is stored, an absent member
leaves the empty string, and a JSON object makes the decoder return an
`UnmarshalTypeError`. -/
def decodeBulk (wire : WireBulk) : Except String BulkResult :=
  if wire.items.any (fun item => match item.error with
      | .object _ _ => true
      | _ => false) then
    .error "json: cannot unmarshal object into Go struct field .items.index.error of type string"
  else
    .ok { Errors := wire.errors,
          Items := wire.items.map (fun item =>
            { Status := item.status,
              Error := match item.error with
                | .text message => message
                | _ => "" }) }

/-- The reply of `es.Bulk` for a response that was transported with a success status
and has the body `wire`. -/
def bulkReplyOf (wire : WireBulk) : BulkReply :=
  match decodeBulk wire with
  | .error err => .undecodable err
  | .ok result => .ok result

/-- The loop `for scanner.Scan()` of `importIndexData` followed by the check of
`scanner.Err()`, over the lines still to be scanned: the scanner stops with
`bufio.ErrTooLong` at a line of `maxScanTokenSize` bytes or more. -/
def readDocuments (json : Json) :
    List Bytes → Nat → List Bytes → Except ImportError (List Bytes)
  | [], _, documents => .ok documents
  | raw :: rest, lineNumber, documents =>
    if raw.length ≥ maxScanTokenSize then .error (.readFile .tooLong)
    else
      let lineNumber := lineNumber + 1
      let line := dropCR raw
      if line = [] then readDocuments json rest lineNumber documents
      else
        match json.Unmarshal line with
        | .error err => .error (.parseJSON err)
        | .ok doc => readDocuments json rest lineNumber (documents ++ [doc])

/-- The variables of the import loop and the observable effects so far. -/
structure ImportState where
  /-- The variable `totalImported`. -/
  totalImported : Nat
  /-- The `es.Bulk` calls made, in order. -/
  bulkCalls : List BulkCall
  /-- The pairs printed by `Imported %d/%d documents...`. -/
  progress : List (Nat × Nat)
  deriving DecidableEq, Repr

/-- The loop `for i := 0; i < len(documents); i += batchSize` of `importIndexData`,
from index `i` on. The `k`-th `es.Bulk` call is answered by `bulk k`. -/
def importLoop (json : Json) (index : String) (bulk : Nat → BulkReply) (documents : List Bytes)
    (i : Nat) (st : ImportState) : ImportState × Option ImportError :=
  if i < documents.length then
    let stop := if i + batchSize > documents.length then documents.length else i + batchSize
    let batch := (documents.take stop).drop i
    match importBatch json index batch (bulk st.bulkCalls.length) with
    | (call, some err) =>
      ({ st with bulkCalls := st.bulkCalls ++ call.toList }, some (.importBatch i (stop - 1) err))
    | (call, none) =>
      let totalImported := st.totalImported + batch.length
      importLoop json index bulk documents (i + batchSize)
        { totalImported := totalImported,
          bulkCalls := st.bulkCalls ++ call.toList,
          progress := st.progress ++ [(totalImported, documents.length)] }
  else (st, none)
termination_by documents.length - i
decreasing_by simp only [batchSize]; omega

/-- The outcome of an import. -/
structure ImportRun where
  /-- The count printed by `Found %d documents to import`, when it was printed. -/
  found : Option Nat
  /-- The `es.Bulk` calls made, in order. -/
  bulkCalls : List BulkCall
  /-- The pairs printed by `Imported %d/%d documents...`. -/
  progress : List (Nat × Nat)
  /-- The returned error, `none` for `nil`. -/
  err : Option ImportError
  deriving DecidableEq, Repr

/-- Go `importIndexData`. `input` is the content of the file `config.Input`, or the
error of `os.Open`; the `k`-th `es.Bulk` call is answered by `bulk k`. -/
def importIndexData (json : Json) (bulk : Nat → BulkReply) (input : Except String Bytes)
    (config : Config) : ImportRun :=
  match input with
  | .error err => { found := none, bulkCalls := [], progress := [], err := some (.openInput err) }
  | .ok data =>
    match readDocuments json (rawLines data) 0 [] with
    | .error err => { found := none, bulkCalls := [], progress := [], err := some err }
    | .ok documents =>
      match importLoop json config.Index bulk documents 0
          { totalImported := 0, bulkCalls := [], progress := [] } with
      | (st, err) =>
        { found := some documents.length, bulkCalls := st.bulkCalls, progress := st.progress,
          err := err }

/-! ## Notions of the specification -/

/-- The `j`-th contiguous chunk of at most `batchSize` records of a record sequence. -/
def chunk (documents : List Bytes) (j : Nat) : List Bytes :=
  (documents.drop (batchSize * j)).take batchSize

/-- The number of chunks of `n` records: `n / batchSize` rounded up. -/
def chunkCount (n : Nat) : Nat := (n + (batchSize - 1)) / batchSize

/-- The file `data` with its blank lines removed: the lines that are empty once the
line ending is dropped are left out, every other line is kept with a line feed. -/
def removeBlankLines (data : Bytes) : Bytes :=
  (((rawLines data).filter (fun raw => decide (dropCR raw ≠ []))).map (fun raw => raw ++ [LF])).flatten

/-- The error entries a bulk response calls for: one per item whose status code is 400
or more, with the position of the item among the response items and its message, in
the order of the items. -/
def failedEntries (items : List BulkItem) : List DocumentError :=
  ((items.enumFrom 0).filter (fun p => decide (p.2.Status ≥ 400))).map
    (fun p => ⟨p.1, p.2.Error⟩)

/-- The action line of a bulk request for `index`: what the encoder yields for the
`index` directive (empty when the encoder fails). -/
def actionLine (json : Json) (index : String) : Bytes :=
  match json.EncodeAction index with
  | .ok line => line
  | .error _ => []

/-- The document line of a bulk request for `doc`: what the encoder yields for the
record (empty when the encoder fails). -/
def documentLine (json : Json) (doc : Bytes) : Bytes :=
  match json.EncodeRaw doc with
  | .ok line => line
  | .error _ => []

/-- The bulk write request of the specification for a chunk: every record of the chunk,
in order, paired with an `index` directive for the target index. -/
def bulkRequest (json : Json) (index : String) (documents : List Bytes) : Bytes :=
  (documents.map (fun doc => actionLine json index ++ documentLine json doc)).flatten

/-- The bulk write of the specification for a chunk: the request `bulkRequest` sent to
the target index. -/
def bulkCallOf (json : Json) (index : String) (documents : List Bytes) : BulkCall :=
  { index := index, documents := documents, body := bulkRequest json index documents }

/-- A record body that occupies exactly one line of the export file and is read back
unchanged: not empty, without line feed, not ending in a carriage return, shorter than
the line limit of the scanner, and a JSON value that `json.Unmarshal` returns as it is. -/
def SingleLine (json : Json) (body : Bytes) : Prop :=
  body ≠ [] ∧ LF ∉ body ∧ body.getLast? ≠ some CR ∧ body.length < maxScanTokenSize ∧
    json.Unmarshal body = .ok body

/-! ## Sample inputs -/

/-- A configuration of an export run. -/
def exportConfig : Config :=
  { ESURL := "http://localhost:9200", Index := "books", Username := "", Password := "",
    Output := "output.jsonl", Input := "", Mode := "export" }

/-- A configuration of an import run. -/
def importConfig : Config :=
  { ESURL := "http://localhost:9200", Index := "books-copy", Username := "", Password := "",
    Output := "output.jsonl", Input := "output.jsonl", Mode := "import" }

/-- Two pages of an index with three records. -/
def samplePages : List SearchResponse :=
  [⟨"cursor-1", [⟨"\x7b\"id\":1\x7d".toList⟩, ⟨"\x7b\"id\":2\x7d".toList⟩]⟩,
   ⟨"cursor-2", [⟨"\x7b\"id\":3\x7d".toList⟩]⟩]

/-- An index that yields `samplePages` and then an empty page; every write succeeds. -/
def sampleExportEnv : ExportEnv :=
  { create := none,
    replies := samplePages.map .ok ++ [.ok ⟨"cursor-3", []⟩],
    writeErr := fun _ => none,
    clearErr := none }

/-- An index in which every bulk write succeeds. -/
def bulkOk : Nat → BulkReply := fun _ => .ok ⟨false, []⟩

/-- Ten lines, the third of which is not JSON. -/
def malformedAtLine3 : Bytes := "1\n2\nthree\n4\n5\n6\n7\n8\n9\n10\n".toList

/-- Ten lines, the seventh of which is not JSON. -/
def malformedAtLine7 : Bytes := "1\n2\n3\n4\n5\n6\nthree\n8\n9\n10\n".toList

/-- A chunk of ten records. -/
def tenDocuments : List Bytes := (List.range 10).map (fun i => [Char.ofNat (48 + i)])

/-- A bulk response for ten items in which the items at positions 2 and 5 failed. -/
def partialFailure : BulkResult :=
  { Errors := true,
    Items := (List.range 10).map (fun i =>
      if i = 2 then ⟨400, "mapper_parsing_exception"⟩
      else if i = 5 then ⟨429, "es_rejected_execution_exception"⟩
      else ⟨201, ""⟩) }

/-- A record sequence of 2500 records: 1000 times `1`, 1000 times `2`, 500 times `3`. -/
def chunkedDocuments : List Bytes :=
  List.replicate 1000 [Char.ofNat 49] ++ List.replicate 1000 [Char.ofNat 50]
    ++ List.replicate 500 [Char.ofNat 51]

/-- The input file with the records of `chunkedDocuments`, one per line. -/
def chunkedFile : Bytes := (chunkedDocuments.map (fun doc => doc ++ [LF])).flatten

/-- A bulk response for ten items as Elasticsearch sends it when the items at positions
2 and 5 failed. -/
def wirePartialFailure : WireBulk :=
  { errors := true,
    items := (List.range 10).map (fun i =>
      if i = 2 then ⟨400, .object "mapper_parsing_exception" "failed to parse"⟩
      else if i = 5 then ⟨429, .object "es_rejected_execution_exception" "rejected"⟩
      else ⟨201, .absent⟩) }

/-- A record body spread over three lines, as Elasticsearch returns a document that was
indexed from indented JSON. -/
def multilineBody : Bytes := "\x7b\n  \"id\": 1\n\x7d".toList

/-- An index with the one record `multilineBody`. -/
def multilineEnv : ExportEnv :=
  { create := none,
    replies := [.ok ⟨"cursor-1", [⟨multilineBody⟩]⟩, .ok ⟨"cursor-1", []⟩],
    writeErr := fun _ => none,
    clearErr := none }

/-! # Properties -/

/-! ## The two facts of `Json.Lawful` for the transcribed scanner -/

theorem Scanner.final_of_run (s : Scanner) (n : Nat) (data : Bytes) (s1 : Scanner) (out : Bytes)
    (h : s.run n data = .ok (s1, out)) : s.final data = some s1 := by
  induction data generalizing s n out with
  | nil => simp [Scanner.run] at h; simp [Scanner.final, h]
  | cons c rest ih =>
    simp only [Scanner.run] at h
    simp only [Scanner.final]
    cases hn : s.next c with
    | none => simp [hn] at h
    | some r =>
      obtain ⟨s2, d⟩ := r
      simp only [hn] at h ⊢
      cases hr : Scanner.run s2 (n + 1) rest with
      | error err => simp [hr] at h
      | ok r2 =>
        obtain ⟨s3, out3⟩ := r2
        simp only [hr, Except.ok.injEq, Prod.mk.injEq] at h
        obtain ⟨h1, _⟩ := h
        subst h1
        exact ih s2 (n + 1) out3 hr

theorem Scanner.run_of_final (s : Scanner) (n : Nat) (data : Bytes) (s1 : Scanner)
    (h : s.final data = some s1) : ∃ out, s.run n data = .ok (s1, out) := by
  induction data generalizing s n with
  | nil => simp [Scanner.final] at h; exact ⟨[], by simp [Scanner.run, h]⟩
  | cons c rest ih =>
    simp only [Scanner.final] at h
    cases hn : s.next c with
    | none => simp [hn] at h
    | some r =>
      obtain ⟨s2, d⟩ := r
      simp only [hn] at h
      obtain ⟨out, hout⟩ := ih s2 (n + 1) h
      exact ⟨compactByte c d ++ out, by simp [Scanner.run, hn, hout]⟩

theorem Scanner.final_append (s : Scanner) (a b : Bytes) :
    s.final (a ++ b) = (s.final a).bind (fun s1 => s1.final b) := by
  induction a generalizing s with
  | nil => simp [Scanner.final]
  | cons c rest ih =>
    simp only [List.cons_append, Scanner.final]
    cases hn : s.next c with
    | none => simp
    | some r => exact ih r.1

theorem isSpace_cases (c : Char) (hc : isSpace c = true) :
    c = Char.ofNat 32 ∨ c = Char.ofNat 9 ∨ c = CR ∨ c = LF := by
  simpa [isSpace, or_assoc] using hc

theorem Scanner.eof_of_next_space (s s1 : Scanner) (c : Char) (d : Bool)
    (hc : isSpace c = true) (h : s.next c = some (s1, d)) (he : s1.eof = true) :
    s.eof = true := by
  obtain ⟨st, ps⟩ := s
  rcases isSpace_cases c hc with rfl | rfl | rfl | rfl <;> cases st <;>
    rcases ps with _ | ⟨p, ps⟩ <;>
    simp [Scanner.next, Scanner.eof, stateEndValue, stateBeginValue, stateBeginString, state0,
      stateESign, expect, pushParseState, isSpace, isDigit, isHex, CR, LF, DQ, BS] at h ⊢ <;>
    (obtain ⟨h1, -⟩ := h
     subst h1
     simp [Scanner.next, Scanner.eof, stateEndValue, stateBeginValue, stateBeginString, state0,
       stateESign, expect, pushParseState, isSpace, isDigit, isHex, CR, LF, DQ, BS] at he)

theorem Scanner.eof_of_final_spaces (ws : Bytes) (hws : ∀ c ∈ ws, isSpace c = true)
    (s s1 : Scanner) (h : s.final ws = some s1) (he : s1.eof = true) : s.eof = true := by
  induction ws generalizing s with
  | nil =>
    simp only [Scanner.final, Option.some.injEq] at h
    rw [h]; exact he
  | cons c rest ih =>
    simp only [Scanner.final] at h
    cases hn : s.next c with
    | none => simp [hn] at h
    | some r =>
      obtain ⟨s2, d⟩ := r
      simp only [hn] at h
      have h2 := ih (fun x hx => hws x (List.mem_cons_of_mem _ hx)) s2 h
      exact Scanner.eof_of_next_space s s2 c d (hws c (List.mem_cons_self _ _)) hn h2

theorem Scanner.final_init_space (c : Char) (hc : isSpace c = true) (rest : Bytes) :
    Scanner.init.final (c :: rest) = Scanner.init.final rest := by
  simp [Scanner.final, Scanner.next, Scanner.init, stateBeginValue, hc]

theorem Scanner.final_init_dropWhile (data : Bytes) :
    Scanner.init.final (data.dropWhile isSpace) = Scanner.init.final data := by
  induction data with
  | nil => rfl
  | cons c rest ih =>
    by_cases hc : isSpace c = true
    · rw [List.dropWhile_cons_of_pos hc, ih, Scanner.final_init_space c hc]
    · rw [List.dropWhile_cons_of_neg hc]

theorem trimRight_append_spaces (data : Bytes) :
    ∃ ws, (∀ c ∈ ws, isSpace c = true) ∧ data = trimRight data ++ ws := by
  induction data with
  | nil => exact ⟨[], by simp, by simp [trimRight]⟩
  | cons c rest ih =>
    obtain ⟨ws, hws, hrest⟩ := ih
    cases ht : trimRight rest with
    | nil =>
      rw [ht] at hrest
      by_cases hc : isSpace c = true
      · refine ⟨c :: ws, ?_, ?_⟩
        · intro x hx
          rcases List.mem_cons.1 hx with rfl | hx
          · exact hc
          · exact hws x hx
        · simp only [trimRight, ht, hc, if_true, List.nil_append]
          rw [hrest, List.nil_append]
      · refine ⟨ws, hws, ?_⟩
        simp only [trimRight, ht, hc]
        rw [hrest]
        simp
    | cons d ds =>
      refine ⟨ws, hws, ?_⟩
      rw [ht] at hrest
      simp only [trimRight, ht]
      rw [List.cons_append, ← hrest]

/-- The validity of a JSON text in terms of the scanner's final state. -/
theorem compact_ok_iff (data : Bytes) :
    (∃ out, compact data = .ok out) ↔ ∃ s, Scanner.init.final data = some s ∧ s.eof = true := by
  constructor
  · rintro ⟨out, h⟩
    unfold compact at h
    cases hr : Scanner.init.run 0 data with
    | error err => simp [hr] at h
    | ok r =>
      obtain ⟨s, o⟩ := r
      simp only [hr] at h
      by_cases he : s.eof = true
      · exact ⟨s, Scanner.final_of_run _ _ _ _ _ hr, he⟩
      · simp [he] at h
  · rintro ⟨s, hf, he⟩
    obtain ⟨out, hr⟩ := Scanner.run_of_final Scanner.init 0 data s hf
    exact ⟨out, by simp [compact, hr, he]⟩

/-- A valid JSON text stays valid without the white space around it. -/
theorem compact_trimSpace (data out : Bytes) (h : compact data = .ok out) :
    ∃ out1, compact (trimSpace data) = .ok out1 := by
  obtain ⟨s, hf, he⟩ := (compact_ok_iff data).1 ⟨out, h⟩
  rw [← Scanner.final_init_dropWhile] at hf
  obtain ⟨ws, hws, hsplit⟩ := trimRight_append_spaces (data.dropWhile isSpace)
  rw [hsplit, Scanner.final_append] at hf
  cases ht : Scanner.init.final (trimRight (data.dropWhile isSpace)) with
  | none => simp [ht] at hf
  | some s0 =>
    simp only [ht, Option.some_bind] at hf
    exact (compact_ok_iff _).2 ⟨s0, ht, Scanner.eof_of_final_spaces ws hws s0 s hf he⟩

/-- The transcribed `encoding/json` has the two facts of `Json.Lawful`. -/
theorem goJson_lawful : goJson.Lawful where
  encodeAction_ok := fun index => ⟨_, rfl⟩
  encodeRaw_unmarshal := by
    intro line doc h
    change goUnmarshal line = .ok doc at h
    unfold goUnmarshal at h
    cases hc : compact line with
    | error err => simp [hc] at h
    | ok out =>
      simp only [hc, Except.ok.injEq] at h
      obtain ⟨out1, h1⟩ := compact_trimSpace line out hc
      rw [← h]
      exact ⟨out1 ++ [LF], by simp [goJson, goEncodeRaw, h1]⟩

/-! ## Export -/

theorem writeHits_ok (writeErr : Nat → Option String) (hwrite : ∀ k, writeErr k = none)
    (hits : List Hit) (st : ExportState) :
    writeHits writeErr hits st =
      ({ st with out := st.out ++ (hits.map (fun h => h.Source ++ [LF])).flatten,
                 writes := st.writes + 2 * hits.length,
                 totalDocs := st.totalDocs + hits.length }, none) := by
  induction hits generalizing st with
  | nil => simp [writeHits]
  | cons hit rest ih =>
    simp only [writeHits, hwrite, ih, List.map_cons, List.flatten_cons, List.length_cons,
      List.append_assoc, Prod.mk.injEq, and_true]
    congr 1 <;> omega

/-- The loop of the export over non-empty pages followed by an empty page. -/
theorem exportLoop_pages (index : String) (writeErr : Nat → Option String)
    (hwrite : ∀ k, writeErr k = none) (last : String) (rest : List SearchReply)
    (pages : List SearchResponse) (hpages : ∀ p ∈ pages, p.Hits ≠ []) (st : ExportState) :
    ∃ st1, exportLoop index writeErr (pages.map .ok ++ .ok ⟨last, []⟩ :: rest) st
        = some (st1, none) ∧
      st1.scrollID = last ∧
      st1.out = st.out ++ ((pages.flatMap (·.Hits)).map (fun h => h.Source ++ [LF])).flatten ∧
      st1.totalDocs = st.totalDocs + (pages.flatMap (·.Hits)).length ∧
      st1.calls = st.calls ++
        nextCall index st.scrollID :: pages.map (fun p => nextCall index p.ScrollID) ∧
      st1.progress.length = st.progress.length + pages.length := by
  induction pages generalizing st with
  | nil =>
    refine ⟨{ st with calls := st.calls ++ [nextCall index st.scrollID], scrollID := last },
      ?_, rfl, ?_, ?_, ?_, ?_⟩ <;> simp [exportLoop]
  | cons p ps ih =>
    have hp : p.Hits.length ≠ 0 := by
      have := hpages p (List.mem_cons_self _ _)
      simpa [List.length_eq_zero] using this
    have hps : ∀ q ∈ ps, q.Hits ≠ [] := fun q hq => hpages q (List.mem_cons_of_mem _ hq)
    obtain ⟨st1, h1, h2, h3, h4, h5, h6⟩ := ih hps
      { scrollID := p.ScrollID,
        totalDocs := st.totalDocs + p.Hits.length,
        out := st.out ++ (p.Hits.map (fun h => h.Source ++ [LF])).flatten,
        writes := st.writes + 2 * p.Hits.length,
        calls := st.calls ++ [nextCall index st.scrollID],
        progress := st.progress ++ [st.totalDocs + p.Hits.length] }
    refine ⟨st1, ?_, h2, ?_, ?_, ?_, ?_⟩
    · simp only [List.map_cons, List.cons_append, exportLoop, hp, if_false,
        writeHits_ok writeErr hwrite]
      exact h1
    · rw [h3]; simp [List.flatMap_cons]
    · rw [h4]; simp [List.flatMap_cons]; omega
    · rw [h5]; simp
    · rw [h6]; simp; omega

/-- The outcome of an export whose replies are non-empty pages followed by an empty page. -/
theorem exportIndexData_pages (env : ExportEnv) (config : Config)
    (pages : List SearchResponse) (last : String) (rest : List SearchReply)
    (hcreate : env.create = none) (hwrite : ∀ k, env.writeErr k = none)
    (hpages : ∀ p ∈ pages, p.Hits ≠ [])
    (hreplies : env.replies = pages.map .ok ++ .ok ⟨last, []⟩ :: rest) :
    ∃ run, exportIndexData env config = some run ∧ run.err = none ∧
      run.out = ((pages.flatMap (·.Hits)).map (fun h => h.Source ++ [LF])).flatten ∧
      run.totalDocs = (pages.flatMap (·.Hits)).length ∧
      run.calls = nextCall config.Index "" ::
        pages.map (fun p => nextCall config.Index p.ScrollID) ∧
      run.progress.length = pages.length := by
  obtain ⟨st1, h1, h2, h3, h4, h5, h6⟩ := exportLoop_pages config.Index env.writeErr hwrite last
    rest pages hpages
    { scrollID := "", totalDocs := 0, out := [], writes := 0, calls := [], progress := [] }
  simp only [exportIndexData, hcreate, hreplies, h1]
  by_cases hs : st1.scrollID = ""
  · simp only [hs, ne_eq, not_true_eq_false, if_false]
    exact ⟨_, rfl, rfl, by simpa using h3, by simpa using h4, by simpa using h5, by simpa using h6⟩
  · simp only [ne_eq, hs, not_false_eq_true, if_true]
    exact ⟨_, rfl, rfl, by simpa using h3, by simpa using h4, by simpa using h5, by simpa using h6⟩

/-! ## Import: building and checking one bulk request -/

theorem bulkBody_ok (json : Json) (hjson : json.Lawful) (index : String) (documents : List Bytes)
    (henc : ∀ d ∈ documents, ∃ b, json.EncodeRaw d = .ok b) (buf : Bytes) :
    ∃ body, bulkBody json index documents buf = .ok body := by
  induction documents generalizing buf with
  | nil => exact ⟨buf, rfl⟩
  | cons doc rest ih =>
    obtain ⟨a, ha⟩ := hjson.encodeAction_ok index
    obtain ⟨b, hb⟩ := henc doc (List.mem_cons_self _ _)
    simp only [bulkBody, ha, hb]
    exact ih (fun d hd => henc d (List.mem_cons_of_mem _ hd)) _

theorem bulkBody_eq (json : Json) (hjson : json.Lawful) (index : String) (documents : List Bytes)
    (henc : ∀ d ∈ documents, ∃ b, json.EncodeRaw d = .ok b) (buf : Bytes) :
    bulkBody json index documents buf = .ok (buf ++ bulkRequest json index documents) := by
  induction documents generalizing buf with
  | nil => simp [bulkBody, bulkRequest]
  | cons doc rest ih =>
    obtain ⟨a, ha⟩ := hjson.encodeAction_ok index
    obtain ⟨b, hb⟩ := henc doc (List.mem_cons_self _ _)
    simp only [bulkBody, ha, hb]
    rw [ih (fun d hd => henc d (List.mem_cons_of_mem _ hd))]
    simp [bulkRequest, actionLine, documentLine, ha, hb, List.append_assoc]

theorem actionLine_ok (json : Json) (hjson : json.Lawful) (index : String) :
    json.EncodeAction index = .ok (actionLine json index) := by
  obtain ⟨a, ha⟩ := hjson.encodeAction_ok index
  simp [actionLine, ha]

theorem documentLine_ok (json : Json) (doc : Bytes) (h : ∃ b, json.EncodeRaw doc = .ok b) :
    json.EncodeRaw doc = .ok (documentLine json doc) := by
  obtain ⟨b, hb⟩ := h
  simp [documentLine, hb]

theorem importBatch_encodable (json : Json) (hjson : json.Lawful) (index : String)
    (documents : List Bytes) (henc : ∀ d ∈ documents, ∃ b, json.EncodeRaw d = .ok b)
    (reply : BulkReply) :
    importBatch json index documents reply
      = (some (bulkCallOf json index documents), replyError reply) := by
  simp [importBatch, bulkCallOf, bulkBody_eq json hjson index documents henc []]

theorem collectErrors_eq (items : List BulkItem) (i : Nat) (errors : List DocumentError) :
    collectErrors items i errors = errors ++
      ((items.enumFrom i).filter (fun p => decide (p.2.Status ≥ 400))).map
        (fun p => ⟨p.1, p.2.Error⟩) := by
  induction items generalizing i errors with
  | nil => simp [collectErrors]
  | cons item rest ih =>
    by_cases h : item.Status ≥ 400
    · simp [collectErrors, h, ih, List.enumFrom_cons, List.filter_cons]
    · simp [collectErrors, h, ih, List.enumFrom_cons, List.filter_cons]

theorem collectErrors_failedEntries (items : List BulkItem) :
    collectErrors items 0 [] = failedEntries items := by
  simp [collectErrors_eq, failedEntries]

theorem failedEntries_ne_nil_iff (items : List BulkItem) :
    failedEntries items ≠ [] ↔ ∃ item ∈ items, item.Status ≥ 400 := by
  unfold failedEntries
  rw [ne_eq, List.map_eq_nil_iff, List.filter_eq_nil_iff]
  constructor
  · intro h
    push_neg at h
    obtain ⟨p, hp, hs⟩ := h
    exact ⟨p.2, List.snd_mem_of_mem_enumFrom hp, by simpa using hs⟩
  · rintro ⟨item, hmem, hs⟩ h
    obtain ⟨k, hk, hget⟩ := List.getElem_of_mem hmem
    have hp : (k, item) ∈ items.enumFrom 0 := by
      rw [List.mk_mem_enumFrom_iff_le_and_getElem?_sub]
      simp [hget, hk]
    exact h (k, item) hp (by simpa using hs)

theorem mem_failedEntries_iff (items : List BulkItem) (i : Nat) (message : String) :
    (⟨i, message⟩ : DocumentError) ∈ failedEntries items ↔
      ∃ item, items[i]? = some item ∧ item.Status ≥ 400 ∧ item.Error = message := by
  unfold failedEntries
  simp only [List.mem_map, List.mem_filter, decide_eq_true_eq, DocumentError.mk.injEq]
  constructor
  · rintro ⟨⟨k, item⟩, ⟨hmem, hs⟩, hk, hm⟩
    rw [List.mk_mem_enumFrom_iff_le_and_getElem?_sub] at hmem
    simp only at hk hm hs
    subst hk
    exact ⟨item, by simpa using hmem.2, hs, hm⟩
  · rintro ⟨item, hget, hs, hm⟩
    refine ⟨(i, item), ⟨?_, hs⟩, rfl, hm⟩
    rw [List.mk_mem_enumFrom_iff_le_and_getElem?_sub]
    simpa using hget

theorem failedEntries_positions_sorted (items : List BulkItem) :
    ((failedEntries items).map (·.position)).Pairwise (· < ·) := by
  unfold failedEntries
  rw [List.map_map]
  have hsub : (((items.enumFrom 0).filter (fun p => decide (p.2.Status ≥ 400))).map
      ((fun e : DocumentError => e.position) ∘ fun p => ⟨p.1, p.2.Error⟩)).Sublist
      ((items.enumFrom 0).map Prod.fst) := by
    have h1 : ((fun e : DocumentError => e.position) ∘ fun p : ℕ × BulkItem => ⟨p.1, p.2.Error⟩)
        = Prod.fst := rfl
    rw [h1]
    exact List.Sublist.map _ (List.filter_sublist _)
  refine List.Pairwise.sublist hsub ?_
  rw [List.enumFrom_map_fst]
  exact List.pairwise_lt_range' 0 items.length

/-! ## Import: reading the input -/

/-- The value of `lineNumber` has no influence on what the reading loop returns. -/
theorem readDocuments_lineNumber (json : Json) (lines : List Bytes) (m n : Nat)
    (documents : List Bytes) :
    readDocuments json lines m documents = readDocuments json lines n documents := by
  induction lines generalizing m n documents with
  | nil => rfl
  | cons raw rest ih =>
    simp only [readDocuments]
    split
    · rfl
    · split
      · exact ih _ _ _
      · split
        · rfl
        · exact ih _ _ _

theorem readDocuments_encodable (json : Json) (hjson : json.Lawful) (lines : List Bytes) (n : Nat)
    (acc documents : List Bytes) (h : readDocuments json lines n acc = .ok documents)
    (hacc : ∀ d ∈ acc, ∃ b, json.EncodeRaw d = .ok b) :
    ∀ d ∈ documents, ∃ b, json.EncodeRaw d = .ok b := by
  induction lines generalizing n acc with
  | nil =>
    simp only [readDocuments, Except.ok.injEq] at h
    rw [← h]; exact hacc
  | cons raw rest ih =>
    simp only [readDocuments] at h
    split at h
    · simp at h
    · split at h
      · exact ih _ _ h hacc
      · split at h
        · simp at h
        · rename_i doc hdoc
          refine ih _ _ h ?_
          intro d hd
          rcases List.mem_append.1 hd with hd | hd
          · exact hacc d hd
          · rw [List.mem_singleton.1 hd]
            exact hjson.encodeRaw_unmarshal _ _ hdoc

theorem readDocuments_error_of_malformed (json : Json) (lines : List Bytes) (n : Nat)
    (acc : List Bytes)
    (hbad : ∃ raw ∈ lines, dropCR raw ≠ [] ∧ ∃ err, json.Unmarshal (dropCR raw) = .error err) :
    ∃ err, readDocuments json lines n acc = .error err := by
  induction lines generalizing n acc with
  | nil => simp at hbad
  | cons raw rest ih =>
    obtain ⟨bad, hmem, hne, err, herr⟩ := hbad
    simp only [readDocuments]
    split
    · exact ⟨_, rfl⟩
    · rcases List.mem_cons.1 hmem with rfl | hmem
      · simp only [hne, if_false, herr]
        exact ⟨_, rfl⟩
      · split
        · exact ih _ _ ⟨bad, hmem, hne, err, herr⟩
        · split
          · exact ⟨_, rfl⟩
          · exact ih _ _ ⟨bad, hmem, hne, err, herr⟩

theorem length_le_one_of_dropCR_nil (raw : Bytes) (h : dropCR raw = []) : raw.length ≤ 1 := by
  unfold dropCR at h
  split at h
  · have := congrArg List.length h
    simp at this
    omega
  · simp [h]

theorem readDocuments_filter (json : Json) (lines : List Bytes) (m n : Nat) (acc : List Bytes) :
    readDocuments json (lines.filter (fun raw => decide (dropCR raw ≠ []))) m acc
      = readDocuments json lines n acc := by
  induction lines generalizing m n acc with
  | nil => rfl
  | cons raw rest ih =>
    by_cases hblank : dropCR raw = []
    · have hlen : ¬ raw.length ≥ maxScanTokenSize := by
        have := length_le_one_of_dropCR_nil raw hblank
        simp only [maxScanTokenSize]; omega
      simp only [List.filter_cons, hblank, ne_eq, not_true_eq_false, decide_False,
        Bool.false_eq_true, if_false, readDocuments, hlen, if_true]
      exact ih _ _ _
    · simp only [List.filter_cons, hblank, ne_eq, not_false_eq_true, decide_True, if_true,
        readDocuments, if_false]
      split
      · rfl
      · split
        · rfl
        · exact ih _ _ _

theorem readDocuments_singleLine (json : Json) (bodies : List Bytes)
    (hbodies : ∀ b ∈ bodies, SingleLine json b) (n : Nat) (acc : List Bytes) :
    readDocuments json bodies n acc = .ok (acc ++ bodies) := by
  induction bodies generalizing n acc with
  | nil => simp [readDocuments]
  | cons b rest ih =>
    obtain ⟨hne, -, hcr, hlen, hparse⟩ := hbodies b (List.mem_cons_self _ _)
    have hdrop : dropCR b = b := by simp [dropCR, hcr]
    have hlen1 : ¬ b.length ≥ maxScanTokenSize := by omega
    simp only [readDocuments, hlen1, if_false, hdrop, hne, hparse]
    rw [ih (fun x hx => hbodies x (List.mem_cons_of_mem _ hx))]
    simp

/-! ## Import: the lines of a file -/

theorem rawLines_append_LF (line rest : Bytes) (h : LF ∉ line) :
    rawLines (line ++ LF :: rest) = line :: rawLines rest := by
  induction line with
  | nil => simp [rawLines]
  | cons c cs ih =>
    have hc : c ≠ LF := fun hc => h (by simp [hc])
    have hcs : LF ∉ cs := fun hcs => h (List.mem_cons_of_mem _ hcs)
    have ih1 := ih hcs
    show rawLines (c :: (cs ++ LF :: rest)) = (c :: cs) :: rawLines rest
    simp only [rawLines, hc, if_false, ih1]

theorem rawLines_unlines (lines : List Bytes) (h : ∀ l ∈ lines, LF ∉ l) :
    rawLines ((lines.map (fun raw => raw ++ [LF])).flatten) = lines := by
  induction lines with
  | nil => rfl
  | cons l rest ih =>
    simp only [List.map_cons, List.flatten_cons, List.append_assoc, List.singleton_append]
    rw [rawLines_append_LF l _ (h l (List.mem_cons_self _ _)),
      ih (fun x hx => h x (List.mem_cons_of_mem _ hx))]

theorem not_mem_of_mem_rawLines (data : Bytes) : ∀ l ∈ rawLines data, LF ∉ l := by
  induction data with
  | nil => simp [rawLines]
  | cons c rest ih =>
    intro l hl
    simp only [rawLines] at hl
    split at hl
    · rcases List.mem_cons.1 hl with rfl | hl
      · simp
      · exact ih l hl
    · rename_i hc
      split at hl
      · simp only [List.mem_singleton] at hl
        subst hl
        simpa using fun h => hc h.symm
      · rename_i line lines hrest
        rcases List.mem_cons.1 hl with rfl | hl
        · have := ih line (by rw [hrest]; exact List.mem_cons_self _ _)
          intro hmem
          rcases List.mem_cons.1 hmem with h1 | h1
          · exact hc h1.symm
          · exact this h1
        · exact ih l (by rw [hrest]; exact List.mem_cons_of_mem _ hl)

theorem rawLines_removeBlankLines (data : Bytes) :
    rawLines (removeBlankLines data)
      = (rawLines data).filter (fun raw => decide (dropCR raw ≠ [])) := by
  unfold removeBlankLines
  apply rawLines_unlines
  intro l hl
  exact not_mem_of_mem_rawLines data l (List.mem_of_mem_filter hl)

/-! ## Import: the loop over the chunks -/

theorem batch_eq (documents : List Bytes) (i : Nat) :
    (documents.take (if i + batchSize > documents.length then documents.length
      else i + batchSize)).drop i = (documents.drop i).take batchSize := by
  rw [List.drop_take]
  split
  · rw [List.take_of_length_le (by simp), List.take_of_length_le (by simp; omega)]
  · simp

theorem mem_batch (documents : List Bytes) (i : Nat) :
    ∀ d ∈ (documents.drop i).take batchSize, d ∈ documents :=
  fun _ hd => List.mem_of_mem_drop (List.mem_of_mem_take hd)

theorem chunkCount_step (n : Nat) (h : 0 < n) :
    chunkCount n = chunkCount (n - batchSize) + 1 := by
  simp only [chunkCount, batchSize]
  omega

theorem chunkCount_zero : chunkCount 0 = 0 := by
  simp [chunkCount, batchSize]

theorem range_map_step (f g : Nat → BulkCall) (n : Nat) (hg : ∀ j, g j = f (j + 1)) :
    (List.range (n + 1)).map f = f 0 :: (List.range n).map g := by
  rw [List.range_succ_eq_map, List.map_cons, List.map_map]
  congr 1
  apply List.map_congr_left
  intro j _
  simp [hg]

theorem bulkCallOf_shift (json : Json) (index : String) (documents : List Bytes) (i j : Nat) :
    bulkCallOf json index ((documents.drop (i + batchSize + batchSize * j)).take batchSize)
      = bulkCallOf json index ((documents.drop (i + batchSize * (j + 1))).take batchSize) := by
  have h : i + batchSize + batchSize * j = i + batchSize * (j + 1) := by ring
  rw [h]

/-- The loop of the import when every remaining bulk write succeeds. -/
theorem importLoop_ok (json : Json) (hjson : json.Lawful) (index : String)
    (bulk : Nat → BulkReply) (documents : List Bytes)
    (henc : ∀ d ∈ documents, ∃ b, json.EncodeRaw d = .ok b)
    (hbulk : ∀ k, replyError (bulk k) = none) (n : Nat) :
    ∀ (i : Nat) (st : ImportState), documents.length ≤ i + batchSize * n →
      ∃ st1, importLoop json index bulk documents i st = (st1, none) ∧
        st1.bulkCalls = st.bulkCalls ++ (List.range (chunkCount (documents.length - i))).map
          (fun j => bulkCallOf json index ((documents.drop (i + batchSize * j)).take batchSize)) ∧
        st1.totalImported = st.totalImported + (documents.length - i) ∧
        st1.progress.length = st.progress.length + chunkCount (documents.length - i) := by
  induction n with
  | zero =>
    intro i st hlen
    rw [importLoop]
    have h0 : documents.length - i = 0 := by omega
    have hi : ¬ i < documents.length := by omega
    simp only [hi, if_false, h0, chunkCount_zero]
    exact ⟨st, rfl, by simp, by simp, by simp⟩
  | succ n ih =>
    intro i st hlen
    by_cases hi : i < documents.length
    · rw [importLoop]
      simp only [hi, if_true, batch_eq]
      rw [importBatch_encodable json hjson index _
        (fun d hd => henc d (mem_batch documents i d hd))]
      simp only [hbulk]
      have hlen1 : documents.length ≤ i + batchSize + batchSize * n := by
        have : batchSize * (n + 1) = batchSize + batchSize * n := by ring
        omega
      obtain ⟨st1, h1, h2, h3, h4⟩ := ih (i + batchSize)
        { totalImported := st.totalImported + ((documents.drop i).take batchSize).length,
          bulkCalls := st.bulkCalls ++
            (some (bulkCallOf json index ((documents.drop i).take batchSize))).toList,
          progress := st.progress ++
            [(st.totalImported + ((documents.drop i).take batchSize).length, documents.length)] }
        hlen1
      have hsub : documents.length - (i + batchSize) = documents.length - i - batchSize := by omega
      have hstep := chunkCount_step (documents.length - i) (by omega)
      rw [hsub] at h2 h3 h4
      refine ⟨st1, h1, ?_, ?_, ?_⟩
      · rw [h2, hstep, range_map_step _ _ _ (bulkCallOf_shift json index documents i)]
        simp [Option.toList]
      · rw [h3]
        simp only [List.length_take, List.length_drop]
        omega
      · rw [h4, hstep]
        simp only [List.length_append, List.length_singleton]
        omega
    · rw [importLoop]
      have h0 : documents.length - i = 0 := by omega
      simp only [hi, if_false, h0, chunkCount_zero]
      exact ⟨st, rfl, by simp, by simp, by simp⟩

theorem chunk_length_le (documents : List Bytes) (j : Nat) :
    (chunk documents j).length ≤ batchSize := by
  simp only [chunk, List.length_take]
  exact Nat.min_le_left _ _

theorem chunk_length_full (documents : List Bytes) (j : Nat)
    (h : j + 1 < chunkCount documents.length) : (chunk documents j).length = batchSize := by
  simp only [chunk, List.length_take, List.length_drop]
  simp only [chunkCount, batchSize] at h ⊢
  omega

theorem chunks_flatten (q : Nat) :
    ∀ documents : List Bytes, documents.length ≤ batchSize * q →
      ((List.range q).map (chunk documents)).flatten = documents := by
  induction q with
  | zero =>
    intro documents h
    have : documents = [] := List.length_eq_zero.1 (by omega)
    simp [this]
  | succ q ih =>
    intro documents h
    have hmul : batchSize * (q + 1) = batchSize + batchSize * q := by ring
    have hrest := ih (documents.drop batchSize) (by rw [List.length_drop]; omega)
    have hshift : ∀ j, chunk (documents.drop batchSize) j = chunk documents (j + 1) := by
      intro j
      have hj : batchSize * (j + 1) = batchSize + batchSize * j := by ring
      simp only [chunk, List.drop_drop, hj]
    rw [List.range_succ_eq_map, List.map_cons, List.map_map, List.flatten_cons]
    have hmap : List.map (chunk documents ∘ Nat.succ) (List.range q)
        = List.map (chunk (documents.drop batchSize)) (List.range q) := by
      apply List.map_congr_left
      intro j _
      simp [hshift]
    rw [hmap, hrest]
    simp only [chunk, Nat.mul_zero, List.drop_zero]
    exact List.take_append_drop _ _

/-- The outcome of an import whose input parses and whose bulk writes all succeed. -/
theorem importIndexData_all_ok (json : Json) (hjson : json.Lawful) (bulk : Nat → BulkReply)
    (data : Bytes) (config : Config) (documents : List Bytes)
    (hparse : readDocuments json (rawLines data) 0 [] = .ok documents)
    (hbulk : ∀ k, replyError (bulk k) = none) :
    (importIndexData json bulk (.ok data) config).err = none ∧
    (importIndexData json bulk (.ok data) config).found = some documents.length ∧
    (importIndexData json bulk (.ok data) config).bulkCalls =
      (List.range (chunkCount documents.length)).map
        (fun j => bulkCallOf json config.Index (chunk documents j)) ∧
    (importIndexData json bulk (.ok data) config).progress.length
      = chunkCount documents.length := by
  have henc := readDocuments_encodable json hjson _ _ _ _ hparse (by simp)
  obtain ⟨st1, h1, h2, -, h4⟩ := importLoop_ok json hjson config.Index bulk documents henc hbulk
    documents.length 0 { totalImported := 0, bulkCalls := [], progress := [] }
    (by simp only [batchSize]; omega)
  simp only [importIndexData, hparse, h1]
  refine ⟨trivial, trivial, ?_, ?_⟩
  · rw [h2]
    simp [chunk]
  · rw [h4]
    simp

/-! ## The claims on the export -/

/-- What the export writes: when the index yields non-empty pages and then a page with
zero hits, and the output accepts every write, the output is the concatenation, in page
order and then hit order, of the body of every record followed by one line feed; when
no body contains a line feed the lines of the output file are exactly the bodies. -/
theorem export_writes_bodies (env : ExportEnv) (config : Config)
    (pages : List SearchResponse) (last : String) (rest : List SearchReply)
    (hcreate : env.create = none) (hwrite : ∀ k, env.writeErr k = none)
    (hpages : ∀ p ∈ pages, p.Hits ≠ [])
    (hreplies : env.replies = pages.map .ok ++ .ok ⟨last, []⟩ :: rest) :
    ∃ run, exportIndexData env config = some run ∧ run.err = none ∧
      run.out = ((pages.flatMap (·.Hits)).map (fun h => h.Source ++ [LF])).flatten ∧
      run.totalDocs = (pages.flatMap (·.Hits)).length ∧
      ((∀ p ∈ pages, ∀ h ∈ p.Hits, LF ∉ h.Source) →
        rawLines run.out = (pages.flatMap (·.Hits)).map (·.Source)) := by
  obtain ⟨run, h1, h2, h3, h4, -, -⟩ :=
    exportIndexData_pages env config pages last rest hcreate hwrite hpages hreplies
  refine ⟨run, h1, h2, h3, h4, ?_⟩
  intro hlf
  have hout : run.out
      = (((pages.flatMap (·.Hits)).map (·.Source)).map (fun raw => raw ++ [LF])).flatten := by
    rw [h3, List.map_map]
    rfl
  rw [hout]
  apply rawLines_unlines
  intro b hb
  obtain ⟨h, hh, rfl⟩ := List.mem_map.1 hb
  obtain ⟨p, hp, hhp⟩ := List.mem_flatMap.1 hh
  exact hlf p hp h hhp

/-- C1: the export of an index whose one record has a body of valid JSON spread over
three lines returns without error having counted one record, and the output file has
three lines, none of which is the body of the record. -/
theorem export_splits_multiline_record :
    goUnmarshal multilineBody = .ok multilineBody ∧
    (exportIndexData multilineEnv exportConfig).map (·.err) = some none ∧
    (exportIndexData multilineEnv exportConfig).map (·.totalDocs) = some 1 ∧
    (exportIndexData multilineEnv exportConfig).map (fun run => rawLines run.out)
      = some [[Char.ofNat 123], "  \"id\": 1".toList, [Char.ofNat 125]] ∧
    (exportIndexData multilineEnv exportConfig).map (fun run => (rawLines run.out).length)
      = some 3 ∧
    (exportIndexData multilineEnv exportConfig).map
      (fun run => decide (multilineBody ∈ rawLines run.out)) = some false := by
  decide

/-- C9: when the index yields non-empty pages and then a page with zero hits, the
export issues one call per page up to and including the empty page and none after it:
the first call is the initial query, the call after a page is a continuation with the
cursor that page returned (the initial query again when that cursor is empty), and
nothing is written for the empty page. -/
theorem export_stops_at_first_empty_page (env : ExportEnv) (config : Config)
    (pages : List SearchResponse) (last : String) (rest : List SearchReply)
    (hcreate : env.create = none) (hwrite : ∀ k, env.writeErr k = none)
    (hpages : ∀ p ∈ pages, p.Hits ≠ [])
    (hreplies : env.replies = pages.map .ok ++ .ok ⟨last, []⟩ :: rest) :
    ∃ run, exportIndexData env config = some run ∧
      run.calls.length = pages.length + 1 ∧
      run.calls = .search config.Index scrollMinutes batchSize ::
        pages.map (fun p => nextCall config.Index p.ScrollID) ∧
      (∀ i id ttl, run.calls[i + 1]? = some (.scroll id ttl) →
        ∃ p, pages[i]? = some p ∧ p.ScrollID = id ∧ ttl = scrollMinutes) ∧
      run.totalDocs = (pages.flatMap (·.Hits)).length ∧
      run.progress.length = pages.length := by
  obtain ⟨run, h1, -, -, h4, h5, h6⟩ :=
    exportIndexData_pages env config pages last rest hcreate hwrite hpages hreplies
  have h5a : run.calls = .search config.Index scrollMinutes batchSize ::
      pages.map (fun p => nextCall config.Index p.ScrollID) := by
    rw [h5]; simp [nextCall]
  refine ⟨run, h1, by rw [h5a]; simp, h5a, ?_, h4, h6⟩
  intro i id ttl hcall
  rw [h5a, List.getElem?_cons_succ, List.getElem?_map] at hcall
  cases hp : pages[i]? with
  | none => simp [hp] at hcall
  | some p =>
    simp only [hp, Option.map_some', Option.some.injEq] at hcall
    refine ⟨p, rfl, ?_⟩
    unfold nextCall at hcall
    split at hcall
    · cases hcall
    · simp only [EsCall.scroll.injEq] at hcall
      exact ⟨hcall.1, hcall.2.symm⟩

/-- The statement of C9 on `samplePages`. -/
theorem export_stops_at_first_empty_page_witness :
    ∃ run, exportIndexData sampleExportEnv exportConfig = some run ∧
      run.calls.length = samplePages.length + 1 ∧
      run.calls = .search exportConfig.Index scrollMinutes batchSize ::
        samplePages.map (fun p => nextCall exportConfig.Index p.ScrollID) ∧
      (∀ i id ttl, run.calls[i + 1]? = some (.scroll id ttl) →
        ∃ p, samplePages[i]? = some p ∧ p.ScrollID = id ∧ ttl = scrollMinutes) ∧
      run.totalDocs = (samplePages.flatMap (·.Hits)).length ∧
      run.progress.length = samplePages.length :=
  export_stops_at_first_empty_page sampleExportEnv exportConfig samplePages "cursor-3" [] rfl
    (fun _ => rfl) (by decide) rfl

/-! ## The claims on the import -/

/-- C3: when the input parses to `n` records and every bulk write succeeds,
`importIndexData` returns without error after exactly `n / 1000` rounded up bulk writes;
the `j`-th write goes to the target index and its request is the `j`-th contiguous
chunk of the records, each record paired with an `index` directive, so the chunks in
submission order concatenate to the record sequence, no chunk has more than 1000
records and every chunk but the last has exactly 1000 (sizes 1000, 1000, 500 for 2500
records, no bulk write for no record). -/
theorem import_chunks (json : Json) (hjson : json.Lawful) (bulk : Nat → BulkReply)
    (data : Bytes) (config : Config) (documents : List Bytes)
    (hparse : readDocuments json (rawLines data) 0 [] = .ok documents)
    (hbulk : ∀ k, replyError (bulk k) = none) :
    (importIndexData json bulk (.ok data) config).err = none ∧
    json.EncodeAction config.Index = .ok (actionLine json config.Index) ∧
    (∀ d ∈ documents, json.EncodeRaw d = .ok (documentLine json d)) ∧
    (importIndexData json bulk (.ok data) config).bulkCalls
      = (List.range ((documents.length + 999) / 1000)).map (fun j =>
          { index := config.Index,
            documents := (documents.drop (1000 * j)).take 1000,
            body := bulkRequest json config.Index ((documents.drop (1000 * j)).take 1000) }) ∧
    (importIndexData json bulk (.ok data) config).bulkCalls.length
      = (documents.length + 999) / 1000 ∧
    (importIndexData json bulk (.ok data) config).bulkCalls.map (·.documents)
      = (List.range ((documents.length + 999) / 1000)).map
          (fun j => (documents.drop (1000 * j)).take 1000) ∧
    ((importIndexData json bulk (.ok data) config).bulkCalls.map (·.documents)).flatten
      = documents ∧
    (∀ c ∈ (importIndexData json bulk (.ok data) config).bulkCalls,
      c.documents.length ≤ 1000) ∧
    (∀ j c, j + 1 < (importIndexData json bulk (.ok data) config).bulkCalls.length →
      (importIndexData json bulk (.ok data) config).bulkCalls[j]? = some c →
      c.documents.length = 1000) ∧
    (documents.length = 2500 →
      (importIndexData json bulk (.ok data) config).bulkCalls.map (·.documents.length)
        = [1000, 1000, 500]) ∧
    (documents.length = 0 → (importIndexData json bulk (.ok data) config).bulkCalls = []) := by
  obtain ⟨h1, -, h3, -⟩ :=
    importIndexData_all_ok json hjson bulk data config documents hparse hbulk
  have henc := readDocuments_encodable json hjson _ _ _ _ hparse (by simp)
  have hcount : (documents.length + 999) / 1000 = chunkCount documents.length := by
    simp [chunkCount, batchSize]
  have hdocs : (importIndexData json bulk (.ok data) config).bulkCalls.map (·.documents)
      = (List.range (chunkCount documents.length)).map (chunk documents) := by
    rw [h3, List.map_map]
    apply List.map_congr_left
    intro j _
    rfl
  have hlen : (importIndexData json bulk (.ok data) config).bulkCalls.length
      = chunkCount documents.length := by
    rw [h3]; simp
  refine ⟨h1, actionLine_ok json hjson config.Index,
    fun d hd => documentLine_ok json d (henc d hd), ?_, by rw [hlen, hcount], ?_, ?_, ?_, ?_,
    ?_, ?_⟩
  · rw [h3, hcount]
    rfl
  · rw [hdocs, hcount]
    rfl
  · rw [hdocs]
    apply chunks_flatten
    simp only [chunkCount, batchSize]
    omega
  · intro c hc
    rw [h3] at hc
    obtain ⟨j, -, rfl⟩ := List.mem_map.1 hc
    exact chunk_length_le documents j
  · intro j c hj hc
    rw [hlen] at hj
    rw [h3, List.getElem?_map, List.getElem?_range (by omega)] at hc
    simp only [Option.map_some', Option.some.injEq] at hc
    rw [← hc]
    exact chunk_length_full documents j hj
  · intro hn
    have hmap : (importIndexData json bulk (.ok data) config).bulkCalls.map (·.documents.length)
        = ((importIndexData json bulk (.ok data) config).bulkCalls.map (·.documents)).map
            List.length := by
      rw [List.map_map]; rfl
    have h3c : chunkCount documents.length = 3 := by
      simp [chunkCount, batchSize, hn]
    rw [hmap, hdocs, h3c]
    simp [List.range_succ, chunk, batchSize, List.length_take, List.length_drop, hn]
  · intro hn
    rw [h3, hn, chunkCount_zero]
    rfl

/-- Every record of `chunkedDocuments` occupies one line. -/
theorem chunkedDocuments_singleLine : ∀ b ∈ chunkedDocuments, SingleLine goJson b := by
  intro b hb
  simp only [chunkedDocuments, List.mem_append, List.mem_replicate] at hb
  rcases hb with (⟨-, rfl⟩ | ⟨-, rfl⟩) | ⟨-, rfl⟩ <;> (unfold SingleLine; decide)

/-- The file `chunkedFile` parses to `chunkedDocuments`. -/
theorem chunkedFile_parses :
    readDocuments goJson (rawLines chunkedFile) 0 [] = .ok chunkedDocuments := by
  have hlines : rawLines chunkedFile = chunkedDocuments :=
    rawLines_unlines _ (fun b hb => (chunkedDocuments_singleLine b hb).2.1)
  rw [hlines, readDocuments_singleLine goJson _ chunkedDocuments_singleLine 0 []]
  rfl

/-- The chunks of `n` times `a`, `n` times `b` and `m ≤ n` times `c`. -/
theorem replicate_chunks (n m : Nat) (hm : m ≤ n) (a b c : Bytes) :
    (List.replicate n a ++ List.replicate n b ++ List.replicate m c).length = n + n + m ∧
    ((List.replicate n a ++ List.replicate n b ++ List.replicate m c).drop (n * 0)).take n
      = List.replicate n a ∧
    ((List.replicate n a ++ List.replicate n b ++ List.replicate m c).drop (n * 1)).take n
      = List.replicate n b ∧
    ((List.replicate n a ++ List.replicate n b ++ List.replicate m c).drop (n * 2)).take n
      = List.replicate m c := by
  refine ⟨by simp; omega, ?_, ?_, ?_⟩
  · simp [List.take_append_eq_append_take]
  · have h2 : n * 1 = (List.replicate n a).length := by simp
    rw [List.append_assoc, h2, List.drop_left]
    simp [List.take_append_eq_append_take]
  · have h2 : n * 2 = (List.replicate n a ++ List.replicate n b).length := by simp; omega
    rw [h2, List.drop_left]
    simp [List.take_replicate, hm]

/-- The three chunks of `chunkedDocuments`. -/
theorem chunkedDocuments_chunks :
    chunkedDocuments.length = 2500 ∧
    (chunkedDocuments.drop (1000 * 0)).take 1000 = List.replicate 1000 [Char.ofNat 49] ∧
    (chunkedDocuments.drop (1000 * 1)).take 1000 = List.replicate 1000 [Char.ofNat 50] ∧
    (chunkedDocuments.drop (1000 * 2)).take 1000 = List.replicate 500 [Char.ofNat 51] :=
  replicate_chunks 1000 500 (by omega) [Char.ofNat 49] [Char.ofNat 50] [Char.ofNat 51]

/-- The lines of the requests of the sample imports. -/
theorem sample_request_lines :
    importConfig.Index = "books-copy" ∧
    actionLine goJson "books-copy" ++ documentLine goJson [Char.ofNat 49]
      = "\x7b\"index\":\x7b\"_index\":\"books-copy\"\x7d\x7d\n1\n".toList ∧
    actionLine goJson "books-copy" ++ documentLine goJson [Char.ofNat 50]
      = "\x7b\"index\":\x7b\"_index\":\"books-copy\"\x7d\x7d\n2\n".toList ∧
    actionLine goJson "books-copy" ++ documentLine goJson [Char.ofNat 51]
      = "\x7b\"index\":\x7b\"_index\":\"books-copy\"\x7d\x7d\n3\n".toList := by
  decide

/-- The request for a chunk that repeats one record. -/
theorem bulkRequest_replicate (json : Json) (index : String) (n : Nat) (doc : Bytes) :
    bulkRequest json index (List.replicate n doc)
      = (List.replicate n (actionLine json index ++ documentLine json doc)).flatten := by
  simp [bulkRequest, List.map_replicate]

/-- The statement of C3 on the 2500 records of `chunkedFile`: three bulk writes with
1000, 1000 and 500 records, in input order. -/
theorem import_chunks_witness :
    readDocuments goJson (rawLines chunkedFile) 0 [] = .ok chunkedDocuments ∧
    chunkedDocuments.length = 2500 ∧
    (importIndexData goJson bulkOk (.ok chunkedFile) importConfig).err = none ∧
    (importIndexData goJson bulkOk (.ok chunkedFile) importConfig).bulkCalls
      = [ { index := "books-copy", documents := List.replicate 1000 [Char.ofNat 49],
            body := (List.replicate 1000
              "\x7b\"index\":\x7b\"_index\":\"books-copy\"\x7d\x7d\n1\n".toList).flatten },
          { index := "books-copy", documents := List.replicate 1000 [Char.ofNat 50],
            body := (List.replicate 1000
              "\x7b\"index\":\x7b\"_index\":\"books-copy\"\x7d\x7d\n2\n".toList).flatten },
          { index := "books-copy", documents := List.replicate 500 [Char.ofNat 51],
            body := (List.replicate 500
              "\x7b\"index\":\x7b\"_index\":\"books-copy\"\x7d\x7d\n3\n".toList).flatten } ] ∧
    (importIndexData goJson bulkOk (.ok chunkedFile) importConfig).bulkCalls.map
      (·.documents.length) = [1000, 1000, 500] :=
  have h := import_chunks goJson goJson_lawful bulkOk chunkedFile importConfig chunkedDocuments
    chunkedFile_parses (fun _ => rfl)
  have hc := chunkedDocuments_chunks
  ⟨chunkedFile_parses, hc.1, h.1, by
    have hl := sample_request_lines
    rw [h.2.2.2.1, hc.1]
    simp only [Nat.reduceAdd, Nat.reduceDiv, List.range_succ, List.range_zero, List.nil_append,
      List.cons_append, List.map_cons, List.map_nil, hc.2.1, hc.2.2.1, hc.2.2.2,
      bulkRequest_replicate, hl.1, hl.2.1, hl.2.2.1, hl.2.2.2],
    h.2.2.2.2.2.2.2.2.2.1 hc.1⟩

/-- C4: when some line of the input that is not blank is rejected by `json.Unmarshal`,
`importIndexData` returns an error and makes no bulk write, however many valid lines
come before it and whatever the index would answer. -/
theorem import_parse_fail_fast (json : Json) (bulk : Nat → BulkReply) (data : Bytes)
    (config : Config)
    (hbad : ∃ raw ∈ rawLines data, dropCR raw ≠ [] ∧
      ∃ err, json.Unmarshal (dropCR raw) = .error err) :
    (importIndexData json bulk (.ok data) config).err ≠ none ∧
    (importIndexData json bulk (.ok data) config).bulkCalls = [] := by
  obtain ⟨err, herr⟩ := readDocuments_error_of_malformed json (rawLines data) 0 [] hbad
  simp [importIndexData, herr]

/-- The statement of C4 on ten lines of which the third is malformed. -/
theorem import_parse_fail_fast_witness :
    (importIndexData goJson bulkOk (.ok malformedAtLine3) importConfig).err ≠ none ∧
    (importIndexData goJson bulkOk (.ok malformedAtLine3) importConfig).bulkCalls = [] :=
  import_parse_fail_fast goJson bulkOk malformedAtLine3 importConfig
    ⟨"three".toList, by decide, by decide, ⟨2⟩, by decide⟩

/-- C10: the import of a file and the import of the same file with its blank lines
removed read the same record sequence and have the same outcome: the same record count,
the same chunks in the same bulk writes, the same result. -/
theorem import_ignores_blank_lines (json : Json) (bulk : Nat → BulkReply) (data : Bytes)
    (config : Config) :
    readDocuments json (rawLines (removeBlankLines data)) 0 []
      = readDocuments json (rawLines data) 0 [] ∧
    importIndexData json bulk (.ok (removeBlankLines data)) config
      = importIndexData json bulk (.ok data) config := by
  have h : readDocuments json (rawLines (removeBlankLines data)) 0 []
      = readDocuments json (rawLines data) 0 [] := by
    rw [rawLines_removeBlankLines]
    exact readDocuments_filter json (rawLines data) 0 0 []
  refine ⟨h, ?_⟩
  simp only [importIndexData, h]

/-- The aggregation of `importBatch`: when `es.Bulk` was called and its response decodes
to a result that indicates errors and has an item of status 400 or more, `importBatch` returns the one error
`bulk import errors` whose entries are those of the items of status 400 or more and no
others, each with the position of the item in the response and its message, in
ascending order of position. -/
theorem importBatch_aggregates_decoded_items (json : Json) (index : String)
    (documents : List Bytes) (result : BulkResult)
    (hcall : (importBatch json index documents (.ok result)).1 ≠ none)
    (herrors : result.Errors = true)
    (hfailed : ∃ item ∈ result.Items, item.Status ≥ 400) :
    ∃ errors, (importBatch json index documents (.ok result)).2 = some (.bulkImport errors) ∧
      errors = failedEntries result.Items ∧
      (∀ i message, (⟨i, message⟩ : DocumentError) ∈ errors ↔
        ∃ item, result.Items[i]? = some item ∧ item.Status ≥ 400 ∧ item.Error = message) ∧
      (errors.map (·.position)).Pairwise (· < ·) := by
  refine ⟨failedEntries result.Items, ?_, rfl, mem_failedEntries_iff result.Items,
    failedEntries_positions_sorted result.Items⟩
  have hne := (failedEntries_ne_nil_iff result.Items).2 hfailed
  have hpos : (failedEntries result.Items).length > 0 := List.length_pos.2 hne
  unfold importBatch at hcall ⊢
  split
  · rename_i e he
    simp [he] at hcall
  · simp [replyError, checkResult, herrors, collectErrors_failedEntries, hpos]

/-- C6: for the bulk response Elasticsearch sends when items 2 and 5 of a chunk of ten
failed (the result indicates errors, both items have a status of 400 or more and an
`error` object), `importBatch` makes the bulk write and returns the error of the
decoder, not the aggregated error with the entries for the positions 2 and 5. -/
theorem importBatch_partial_failure_undecodable :
    wirePartialFailure.errors = true ∧
    (wirePartialFailure.items.enum.filter (fun p => decide (p.2.status ≥ 400))).map (·.1)
      = [2, 5] ∧
    (importBatch goJson "books-copy" tenDocuments (bulkReplyOf wirePartialFailure)).1 ≠ none ∧
    (∃ err, (importBatch goJson "books-copy" tenDocuments (bulkReplyOf wirePartialFailure)).2
      = some (.decodeResponse err)) ∧
    (∀ errors, (importBatch goJson "books-copy" tenDocuments (bulkReplyOf wirePartialFailure)).2
      ≠ some (.bulkImport errors)) := by
  have hd : (importBatch goJson "books-copy" tenDocuments (bulkReplyOf wirePartialFailure)).2
      = some (.decodeResponse
        "json: cannot unmarshal object into Go struct field .items.index.error of type string") := by
    decide
  refine ⟨by decide, by decide, by decide, ⟨_, hd⟩, ?_⟩
  intro errors h
  rw [hd] at h
  cases h

/-- C8: when `es.Bulk` was called and its response decodes, `importBatch` returns an
error exactly when the result indicates errors and has an item of status 400 or more;
it returns `nil` when the result indicates no errors, whatever the item statuses, and
when the result indicates errors but no item has status 400 or more. -/
theorem importBatch_fails_iff (json : Json) (index : String) (documents : List Bytes)
    (result : BulkResult)
    (hcall : (importBatch json index documents (.ok result)).1 ≠ none) :
    ((importBatch json index documents (.ok result)).2 ≠ none ↔
      (result.Errors = true ∧ ∃ item ∈ result.Items, item.Status ≥ 400)) ∧
    (result.Errors = false → (importBatch json index documents (.ok result)).2 = none) ∧
    ((∀ item ∈ result.Items, item.Status < 400) →
      (importBatch json index documents (.ok result)).2 = none) := by
  have hres : (importBatch json index documents (.ok result)).2 = checkResult result := by
    unfold importBatch at hcall ⊢
    split
    · rename_i e he
      simp [he] at hcall
    · rfl
  have hiff : checkResult result ≠ none ↔
      (result.Errors = true ∧ ∃ item ∈ result.Items, item.Status ≥ 400) := by
    rw [← failedEntries_ne_nil_iff]
    unfold checkResult
    cases hE : result.Errors with
    | false => simp
    | true =>
      simp only [if_true, collectErrors_failedEntries, true_and]
      cases hF : failedEntries result.Items with
      | nil => simp
      | cons e es => simp
  rw [hres]
  refine ⟨hiff, ?_, ?_⟩
  · intro hE
    by_contra hne
    have := hiff.1 hne
    rw [hE] at this
    exact absurd this.1 (by decide)
  · intro hall
    by_contra hne
    obtain ⟨-, item, hmem, hs⟩ := hiff.1 hne
    have := hall item hmem
    omega

/-- The statement of C8 on a response for ten items of which items 2 and 5 failed. -/
theorem importBatch_fails_iff_witness :
    (importBatch goJson "books-copy" tenDocuments (.ok partialFailure)).2 ≠ none ↔
      (partialFailure.Errors = true ∧ ∃ item ∈ partialFailure.Items, item.Status ≥ 400) :=
  (importBatch_fails_iff goJson "books-copy" tenDocuments partialFailure (by decide)).1

/-- C5: the error `importIndexData` returns for a malformed line carries the error of
`json.Unmarshal` and nothing else: for ten lines of which the third is malformed and for
ten lines of which the seventh is malformed in the same way it is the same error. -/
theorem import_parse_error_without_line_number :
    (importIndexData goJson bulkOk (.ok malformedAtLine3) importConfig).err
      = some (.parseJSON ⟨2⟩) ∧
    (importIndexData goJson bulkOk (.ok malformedAtLine7) importConfig).err
      = some (.parseJSON ⟨2⟩) := by
  decide

/-- C2: a record body that is valid JSON spread over three lines is exported
as three lines, and the import of that file stops at its first line with a parse error,
without any bulk write. -/
theorem roundtrip_loses_multiline_record :
    goUnmarshal multilineBody = .ok multilineBody ∧
    (exportIndexData multilineEnv exportConfig).map (·.out) = some (multilineBody ++ [LF]) ∧
    (exportIndexData multilineEnv exportConfig).map (·.err) = some none ∧
    (importIndexData goJson bulkOk (.ok (multilineBody ++ [LF])) importConfig).bulkCalls = [] ∧
    (importIndexData goJson bulkOk (.ok (multilineBody ++ [LF])) importConfig).err
      = some (.parseJSON ⟨1⟩) := by
  decide

/-- The round trip for single-line records: when every record body of the exported
pages occupies one line (`SingleLine`) and every bulk write succeeds, the import of the
exported file returns without error and its bulk writes are the requests for the
chunks of the exported record bodies, in export order. -/
theorem roundtrip_single_line_records (json : Json) (hjson : json.Lawful)
    (bulk : Nat → BulkReply) (env : ExportEnv) (config target : Config)
    (pages : List SearchResponse) (last : String) (rest : List SearchReply)
    (hcreate : env.create = none) (hwrite : ∀ k, env.writeErr k = none)
    (hpages : ∀ p ∈ pages, p.Hits ≠ [])
    (hreplies : env.replies = pages.map .ok ++ .ok ⟨last, []⟩ :: rest)
    (hbodies : ∀ p ∈ pages, ∀ h ∈ p.Hits, SingleLine json h.Source)
    (hbulk : ∀ k, replyError (bulk k) = none) :
    ∃ run, exportIndexData env config = some run ∧ run.err = none ∧
      (importIndexData json bulk (.ok run.out) target).err = none ∧
      (importIndexData json bulk (.ok run.out) target).bulkCalls
        = (List.range (chunkCount ((pages.flatMap (·.Hits)).map (·.Source)).length)).map
            (fun j => bulkCallOf json target.Index
              (chunk ((pages.flatMap (·.Hits)).map (·.Source)) j)) ∧
      (importIndexData json bulk (.ok run.out) target).bulkCalls.flatMap (·.documents)
        = (pages.flatMap (·.Hits)).map (·.Source) := by
  obtain ⟨run, h1, h2, h3, -, -, -⟩ :=
    exportIndexData_pages env config pages last rest hcreate hwrite hpages hreplies
  have hsingle : ∀ b ∈ (pages.flatMap (·.Hits)).map (·.Source), SingleLine json b := by
    intro b hb
    obtain ⟨h, hh, rfl⟩ := List.mem_map.1 hb
    obtain ⟨p, hp, hhp⟩ := List.mem_flatMap.1 hh
    exact hbodies p hp h hhp
  have hout : run.out
      = (((pages.flatMap (·.Hits)).map (·.Source)).map (fun raw => raw ++ [LF])).flatten := by
    rw [h3, List.map_map]
    rfl
  have hlines : rawLines run.out = (pages.flatMap (·.Hits)).map (·.Source) := by
    rw [hout]
    exact rawLines_unlines _ (fun b hb => (hsingle b hb).2.1)
  have hparse : readDocuments json (rawLines run.out) 0 []
      = .ok ((pages.flatMap (·.Hits)).map (·.Source)) := by
    rw [hlines, readDocuments_singleLine json _ hsingle 0 []]
    rfl
  obtain ⟨g1, -, g3, -⟩ :=
    importIndexData_all_ok json hjson bulk run.out target _ hparse hbulk
  refine ⟨run, h1, h2, g1, g3, ?_⟩
  rw [g3, List.flatMap_def, List.map_map]
  have hmap : ((fun c : BulkCall => c.documents) ∘ fun j =>
      bulkCallOf json target.Index (chunk ((pages.flatMap (·.Hits)).map (·.Source)) j))
      = chunk ((pages.flatMap (·.Hits)).map (·.Source)) := rfl
  rw [hmap]
  apply chunks_flatten
  simp only [chunkCount, batchSize]
  omega

end EsTool
